import Mathlib

/-!
# Verification of the imsdk-server-core messaging fabric

Shallow embedding of the wire packet codec (`WssBridgePackData.serialize` /
`deserialize`), the server receive pipeline (`WssServer._onWebSocketMessage`),
the UID/session/channel registries (`bindUid`, `unbindUid`, `joinChannel`,
`quitChannel`, `deleteChannel`, socket-close cleanup), the per-session
request-id ring (`WssSession.updateReqId`), the bridge-client timer tick
(`WssBridge.onTimerTick`, `WssBridge.request`) and the cluster inner-envelope
signing (`_generateInnerData` / `_validateInnerData`).

Modelling conventions:
* JSON values are modelled by `JValue`; numbers are modelled as integers
  (IEEE-754 fractional values are out of scope of the shallow embedding).
* `JSON.stringify` / `JSON.parse` (library calls made by the source) are
  modelled by the executable pair `jsonRender` / `jsonParse` below: compact
  rendering, last-key-wins object field lookup, control characters escaped
  with \u00XX escapes.
* The crypto-js primitives (AES-256-CBC, HMAC-SHA256, Base64) are library
  calls; they are abstracted by the `CryptoPrims` record, and theorems that
  need their documented contracts (decryption inverts encryption, Base64
  decode inverts encode) take those contracts as explicit hypotheses.
* JS absent/`undefined` values are modelled by `Option`.
-/

namespace ImsdkCore

/-- JSON-representable runtime values (numbers restricted to integers). -/
inductive JValue where
  | null : JValue
  | bool : Bool → JValue
  | num : Int → JValue
  | str : String → JValue
  | arr : List JValue → JValue
  | obj : List (String × JValue) → JValue
deriving Repr

mutual

/-- Decidable equality of JSON values. -/
def JValue.beq : JValue → JValue → Bool
  | .null, .null => true
  | .bool a, .bool b => a == b
  | .num a, .num b => a == b
  | .str a, .str b => a == b
  | .arr a, .arr b => JValue.beqList a b
  | .obj a, .obj b => JValue.beqFields a b
  | _, _ => false

def JValue.beqList : List JValue → List JValue → Bool
  | [], [] => true
  | a :: as_, b :: bs => JValue.beq a b && JValue.beqList as_ bs
  | _, _ => false

def JValue.beqFields : List (String × JValue) → List (String × JValue) → Bool
  | [], [] => true
  | (ka, va) :: as_, (kb, vb) :: bs =>
      ka == kb && JValue.beq va vb && JValue.beqFields as_ bs
  | _, _ => false

end

mutual

theorem JValue.beq_iff : ∀ a b : JValue, JValue.beq a b = true ↔ a = b
  | .null, b => by cases b <;> simp [JValue.beq]
  | .bool x, b => by cases b <;> simp [JValue.beq]
  | .num x, b => by cases b <;> simp [JValue.beq]
  | .str x, b => by cases b <;> simp [JValue.beq]
  | .arr xs, b => by
      cases b <;> simp [JValue.beq]
      exact JValue.beqList_iff xs _
  | .obj xs, b => by
      cases b <;> simp [JValue.beq]
      exact JValue.beqFields_iff xs _

theorem JValue.beqList_iff : ∀ a b : List JValue, JValue.beqList a b = true ↔ a = b
  | [], b => by cases b <;> simp [JValue.beqList]
  | x :: xs, b => by
      cases b with
      | nil => simp [JValue.beqList]
      | cons y ys =>
          simp [JValue.beqList, Bool.and_eq_true, JValue.beq_iff x y,
            JValue.beqList_iff xs ys]

theorem JValue.beqFields_iff :
    ∀ a b : List (String × JValue), JValue.beqFields a b = true ↔ a = b
  | [], b => by cases b <;> simp [JValue.beqFields]
  | (k, v) :: xs, b => by
      cases b with
      | nil => simp [JValue.beqFields]
      | cons y ys =>
          obtain ⟨k2, v2⟩ := y
          simp [JValue.beqFields, Bool.and_eq_true, JValue.beq_iff v v2,
            JValue.beqFields_iff xs ys, and_assoc]

end

instance : DecidableEq JValue := fun a b =>
  decidable_of_iff (JValue.beq a b = true) (JValue.beq_iff a b)

/-! ## Compact JSON rendering (model of `JSON.stringify`) -/

/-- The `\x7b` character. -/
def lbrace : Char := Char.ofNat 123

/-- The `\x7d` character. -/
def rbrace : Char := Char.ofNat 125

/-- Lower-case hexadecimal digit character for `n < 16`. -/
def hexDigitChar (n : Nat) : Char :=
  if n < 10 then Char.ofNat (48 + n) else Char.ofNat (87 + n)

/-- JSON escaping of one character: quote and backslash get two-character
escapes, control characters get `\u00XX` escapes, the rest is verbatim. -/
def escapeChar (c : Char) : List Char :=
  if c = '"' then ['\\', '"']
  else if c = '\\' then ['\\', '\\']
  else if c.toNat < 32 then
    ['\\', 'u', '0', '0', hexDigitChar (c.toNat / 16), hexDigitChar (c.toNat % 16)]
  else [c]

/-- JSON escaping of a character list. -/
def escapeList : List Char → List Char
  | [] => []
  | c :: cs => escapeChar c ++ escapeList cs

/-- Decimal digit characters of a natural number (no leading zeros). -/
def natChars (n : Nat) : List Char :=
  if n = 0 then ['0']
  else ((Nat.digits 10 n).map fun d => Char.ofNat (48 + d)).reverse

/-- Decimal rendering of an integer. -/
def intChars (n : Int) : List Char :=
  if n < 0 then '-' :: natChars n.natAbs else natChars n.natAbs

mutual

/-- Compact JSON rendering of a value. -/
def jsonRenderV : JValue → List Char
  | .num n => intChars n
  | .bool false => ['f', 'a', 'l', 's', 'e']
  | .bool true => ['t', 'r', 'u', 'e']
  | .null => ['n', 'u', 'l', 'l']
  | .str s => '"' :: (escapeList s.data ++ ['"'])
  | .arr [] => ['[', ']']
  | .arr (v :: vs) => '[' :: (jsonRenderV v ++ jsonRenderItems vs ++ [']'])
  | .obj [] => [lbrace, rbrace]
  | .obj (m :: ms) => lbrace :: (jsonRenderMember m ++ jsonRenderMembers ms ++ [rbrace])

/-- Rendering of the tail items of an array, each preceded by a comma. -/
def jsonRenderItems : List JValue → List Char
  | [] => []
  | v :: vs => ',' :: (jsonRenderV v ++ jsonRenderItems vs)

/-- Rendering of one object member `"key":value`. -/
def jsonRenderMember : String × JValue → List Char
  | (k, v) => '"' :: (escapeList k.data ++ ['"', ':'] ++ jsonRenderV v)

/-- Rendering of the tail members of an object, each preceded by a comma. -/
def jsonRenderMembers : List (String × JValue) → List Char
  | [] => []
  | m :: ms => ',' :: (jsonRenderMember m ++ jsonRenderMembers ms)

end

/-! ## JSON parsing (model of `JSON.parse`, integers only, compact input) -/

/-- Whether `c` is a decimal digit character. -/
def isDigitChar (c : Char) : Bool := decide (48 ≤ c.toNat) && decide (c.toNat ≤ 57)

/-- Value of a hexadecimal digit character. -/
def hexVal (c : Char) : Option Nat :=
  if 48 ≤ c.toNat ∧ c.toNat ≤ 57 then some (c.toNat - 48)
  else if 97 ≤ c.toNat ∧ c.toNat ≤ 102 then some (c.toNat - 87)
  else if 65 ≤ c.toNat ∧ c.toNat ≤ 70 then some (c.toNat - 55)
  else none

/-- Parse the body of a JSON string literal, after its opening quote.
`acc` holds the characters read so far, in reverse. -/
def parseStrBody (acc : List Char) (cs : List Char) : Option (String × List Char) :=
  match cs with
  | [] => none
  | c :: rest =>
    if c = '"' then some (String.mk acc.reverse, rest)
    else if c = '\\' then
      match rest with
      | [] => none
      | e :: r =>
        if e = '"' then parseStrBody ('"' :: acc) r
        else if e = '\\' then parseStrBody ('\\' :: acc) r
        else if e = '/' then parseStrBody ('/' :: acc) r
        else if e = 'n' then parseStrBody ('\n' :: acc) r
        else if e = 't' then parseStrBody ('\t' :: acc) r
        else if e = 'r' then parseStrBody ('\r' :: acc) r
        else if e = 'b' then parseStrBody (Char.ofNat 8 :: acc) r
        else if e = 'f' then parseStrBody (Char.ofNat 12 :: acc) r
        else if e = 'u' then
          match r with
          | h1 :: h2 :: h3 :: h4 :: r2 =>
            match hexVal h1, hexVal h2, hexVal h3, hexVal h4 with
            | some a, some b, some c2, some d =>
                parseStrBody (Char.ofNat (((a * 16 + b) * 16 + c2) * 16 + d) :: acc) r2
            | _, _, _, _ => none
          | _ => none
        else none
    else if c.toNat < 32 then none
    else parseStrBody (c :: acc) rest

/-- Split a leading run of decimal digit characters. -/
def takeDigits : List Char → List Char × List Char
  | [] => ([], [])
  | c :: cs =>
    if isDigitChar c then
      let p := takeDigits cs
      (c :: p.1, p.2)
    else ([], c :: cs)

/-- Numeric value of a digit-character run (most significant first). -/
def digitsVal (ds : List Char) : Nat :=
  ds.foldl (fun acc c => acc * 10 + (c.toNat - 48)) 0

/-- Parse a JSON integer literal (fractional and exponent forms are outside
the integer model and are rejected). -/
def parseNum (cs : List Char) : Option (JValue × List Char) :=
  let neg : Bool := match cs with
    | c :: _ => c == '-'
    | [] => false
  let body := if neg then cs.tail else cs
  let p := takeDigits body
  match p.1 with
  | [] => none
  | d :: ds =>
    if d = '0' ∧ ds ≠ [] then none
    else
      match p.2 with
      | c :: _ =>
        if c = '.' ∨ c = 'e' ∨ c = 'E' then none
        else some (.num (if neg then -(digitsVal (d :: ds) : Int) else (digitsVal (d :: ds) : Int)), p.2)
      | [] => some (.num (if neg then -(digitsVal (d :: ds) : Int) else (digitsVal (d :: ds) : Int)), p.2)

mutual

/-- Fuel-indexed parser for one JSON value. -/
def parseV : Nat → List Char → Option (JValue × List Char)
  | 0, _ => none
  | _ + 1, [] => none
  | fuel + 1, c :: cs =>
    if c = 'n' then
      match cs with
      | 'u' :: 'l' :: 'l' :: r => some (.null, r)
      | _ => none
    else if c = 't' then
      match cs with
      | 'r' :: 'u' :: 'e' :: r => some (.bool true, r)
      | _ => none
    else if c = 'f' then
      match cs with
      | 'a' :: 'l' :: 's' :: 'e' :: r => some (.bool false, r)
      | _ => none
    else if c = '"' then
      match parseStrBody [] cs with
      | some (s, r) => some (.str s, r)
      | none => none
    else if c = '-' ∨ isDigitChar c then parseNum (c :: cs)
    else if c = '[' then
      match cs with
      | [] => none
      | c2 :: r =>
        if c2 = ']' then some (.arr [], r)
        else
          match parseItems fuel (c2 :: r) with
          | some (vs, r2) => some (.arr vs, r2)
          | none => none
    else if c = lbrace then
      match cs with
      | [] => none
      | c2 :: r =>
        if c2 = rbrace then some (.obj [], r)
        else
          match parseMembers fuel (c2 :: r) with
          | some (ms, r2) => some (.obj ms, r2)
          | none => none
    else none

/-- Fuel-indexed parser for the items of a non-empty array, consuming the
closing bracket. -/
def parseItems : Nat → List Char → Option (List JValue × List Char)
  | 0, _ => none
  | fuel + 1, cs =>
    match parseV fuel cs with
    | some (v, r) =>
      match r with
      | ',' :: r2 =>
        match parseItems fuel r2 with
        | some (vs, r3) => some (v :: vs, r3)
        | none => none
      | ']' :: r2 => some ([v], r2)
      | _ => none
    | none => none

/-- Fuel-indexed parser for the members of a non-empty object, consuming the
closing brace. -/
def parseMembers : Nat → List Char → Option (List (String × JValue) × List Char)
  | 0, _ => none
  | fuel + 1, cs =>
    match cs with
    | '"' :: cs2 =>
      match parseStrBody [] cs2 with
      | some (k, r) =>
        match r with
        | ':' :: r2 =>
          match parseV fuel r2 with
          | some (v, r3) =>
            match r3 with
            | [] => none
            | c :: r4 =>
              if c = ',' then
                match parseMembers fuel r4 with
                | some (ms, r5) => some ((k, v) :: ms, r5)
                | none => none
              else if c = rbrace then some ([(k, v)], r4)
              else none
          | none => none
        | _ => none
      | none => none
    | _ => none

end

/-- Parse a complete JSON document given as a character list. -/
def jsonParseChars (cs : List Char) : Option JValue :=
  match parseV (cs.length + 1) cs with
  | some (v, []) => some v
  | _ => none

/-- Model of `JSON.parse` on compact integer-valued JSON text: either a value
or a failure (`none` models the thrown exception). -/
def jsonParse (s : String) : Option JValue :=
  jsonParseChars s.data

/-! ## Round-trip of the JSON codec -/

theorem char_toNat_ofNat (n : Nat) (h : n < 55296) : (Char.ofNat n).toNat = n := by
  have hv : n.isValidChar := Or.inl h
  rw [Char.ofNat, dif_pos hv]
  rfl

theorem string_mk_data (s : String) : String.mk s.data = s := rfl

theorem hexVal_hexDigitChar (n : Nat) (h : n < 16) : hexVal (hexDigitChar n) = some n := by
  interval_cases n <;> decide

theorem parseStrBody_escapeList (s : List Char) : ∀ (acc rest : List Char),
    parseStrBody acc (escapeList s ++ '"' :: rest) =
      some (String.mk (acc.reverse ++ s), rest) := by
  induction s with
  | nil =>
    intro acc rest
    simp [escapeList, parseStrBody.eq_def]
  | cons c cs ih =>
    intro acc rest
    rw [escapeList, List.append_assoc]
    by_cases hq : c = '"'
    · subst hq
      rw [escapeChar, if_pos rfl]
      rw [show (['\\', '"'] : List Char) ++ (escapeList cs ++ '"' :: rest) =
            '\\' :: '"' :: (escapeList cs ++ '"' :: rest) from rfl]
      rw [parseStrBody.eq_def]
      simp [ih]
    · by_cases hbk : c = '\\'
      · subst hbk
        rw [escapeChar, if_neg (by decide), if_pos rfl]
        rw [show (['\\', '\\'] : List Char) ++ (escapeList cs ++ '"' :: rest) =
              '\\' :: '\\' :: (escapeList cs ++ '"' :: rest) from rfl]
        rw [parseStrBody.eq_def]
        simp [ih]
      · by_cases hctl : c.toNat < 32
        · rw [escapeChar, if_neg hq, if_neg hbk, if_pos hctl]
          rw [show (['\\', 'u', '0', '0', hexDigitChar (c.toNat / 16),
                hexDigitChar (c.toNat % 16)] : List Char) ++ (escapeList cs ++ '"' :: rest) =
              '\\' :: 'u' :: '0' :: '0' :: hexDigitChar (c.toNat / 16) ::
                hexDigitChar (c.toNat % 16) :: (escapeList cs ++ '"' :: rest) from rfl]
          rw [parseStrBody.eq_def]
          have hv0 : hexVal '0' = some 0 := by decide
          have hv1 : hexVal (hexDigitChar (c.toNat / 16)) = some (c.toNat / 16) :=
            hexVal_hexDigitChar _ (by omega)
          have hv2 : hexVal (hexDigitChar (c.toNat % 16)) = some (c.toNat % 16) :=
            hexVal_hexDigitChar _ (by omega)
          simp [ih, hv0, hv1, hv2, Char.ofNat_toNat,
            show c.toNat / 16 * 16 + c.toNat % 16 = c.toNat from by omega]
        · rw [escapeChar, if_neg hq, if_neg hbk, if_neg hctl]
          rw [show ([c] : List Char) ++ (escapeList cs ++ '"' :: rest) =
               c :: (escapeList cs ++ '"' :: rest) from rfl]
          rw [parseStrBody.eq_def]
          simp [ih, hq, hbk, hctl]

theorem natChars_all_digits (n : Nat) : ∀ c ∈ natChars n, isDigitChar c = true := by
  intro c hc
  unfold natChars at hc
  by_cases h0 : n = 0
  · rw [if_pos h0] at hc
    simp only [List.mem_singleton] at hc
    subst hc
    decide
  · rw [if_neg h0, List.mem_reverse] at hc
    obtain ⟨d, hd, rfl⟩ := List.mem_map.mp hc
    have hlt : d < 10 := Nat.digits_lt_base (by norm_num) hd
    have ht : (Char.ofNat (48 + d)).toNat = 48 + d := char_toNat_ofNat _ (by omega)
    simp only [isDigitChar, ht, Bool.and_eq_true, decide_eq_true_eq]
    omega

theorem digitsVal_append_digit (X : List Char) (c : Char) :
    digitsVal (X ++ [c]) = digitsVal X * 10 + (c.toNat - 48) := by
  unfold digitsVal
  rw [List.foldl_append]
  rfl

theorem digitsVal_rev_map (L : List Nat) (hL : ∀ d ∈ L, d < 10) :
    digitsVal ((L.map fun d => Char.ofNat (48 + d)).reverse) = Nat.ofDigits 10 L := by
  induction L with
  | nil => rfl
  | cons d L ihL =>
    rw [List.map_cons, List.reverse_cons, digitsVal_append_digit,
      ihL fun x hx => hL x (List.mem_cons_of_mem _ hx)]
    have hd : d < 10 := hL d (List.mem_cons_self _ _)
    have ht : (Char.ofNat (48 + d)).toNat = 48 + d := char_toNat_ofNat _ (by omega)
    rw [ht, Nat.ofDigits_cons]
    omega

theorem digitsVal_natChars (n : Nat) : digitsVal (natChars n) = n := by
  unfold natChars
  by_cases h0 : n = 0
  · rw [if_pos h0, h0]
    decide
  · rw [if_neg h0, digitsVal_rev_map _ fun d hd => Nat.digits_lt_base (by norm_num) hd,
      Nat.ofDigits_digits]

theorem natChars_ne_nil (n : Nat) : natChars n ≠ [] := by
  unfold natChars
  by_cases h0 : n = 0
  · rw [if_pos h0]
    simp
  · rw [if_neg h0]
    simp only [ne_eq, List.reverse_eq_nil_iff, List.map_eq_nil_iff]
    exact Nat.digits_ne_nil_iff_ne_zero.mpr h0

theorem natChars_no_leading_zero (n : Nat) (d : Char) (ds : List Char)
    (h : natChars n = d :: ds) (hd : d = '0') : ds = [] := by
  by_cases h0 : n = 0
  · unfold natChars at h
    rw [if_pos h0] at h
    exact (List.cons.injEq _ _ _ _ ▸ h).2.symm
  · exfalso
    unfold natChars at h
    rw [if_neg h0] at h
    have hnil : Nat.digits 10 n ≠ [] := Nat.digits_ne_nil_iff_ne_zero.mpr h0
    obtain ⟨g, L', hsplit⟩ : ∃ g L', Nat.digits 10 n = L' ++ [g] := by
      rcases List.eq_nil_or_concat (Nat.digits 10 n) with hc | ⟨L', g, hc⟩
      · exact absurd hc hnil
      · exact ⟨g, L', by rw [hc, List.concat_eq_append]⟩
    have hgmem : g ∈ Nat.digits 10 n := by
      rw [hsplit]
      exact List.mem_append_right _ (List.mem_singleton_self g)
    have hglt : g < 10 := Nat.digits_lt_base (by norm_num) hgmem
    have hgq : (Nat.digits 10 n).getLast? = some g := by
      rw [hsplit]
      exact List.getLast?_concat _
    have hgq2 : (Nat.digits 10 n).getLast? = some ((Nat.digits 10 n).getLast hnil) :=
      List.getLast?_eq_getLast _ hnil
    have hgeq : (Nat.digits 10 n).getLast hnil = g := by
      rw [hgq] at hgq2
      exact (Option.some.injEq _ _ ▸ hgq2).symm
    have hgne : g ≠ 0 := hgeq ▸ Nat.getLast_digit_ne_zero 10 h0
    have hmapsplit : (Nat.digits 10 n).map (fun d => Char.ofNat (48 + d)) =
        (L'.map fun d => Char.ofNat (48 + d)) ++ [Char.ofNat (48 + g)] := by
      rw [hsplit, List.map_append, List.map_singleton]
    rw [hmapsplit, List.reverse_append, List.reverse_singleton] at h
    have hdg : d = Char.ofNat (48 + g) := ((List.cons.injEq _ _ _ _ ▸ h).1).symm
    have ht : (Char.ofNat (48 + g)).toNat = 48 + g := char_toNat_ofNat _ (by omega)
    have hdt : d.toNat = 48 + g := by rw [hdg, ht]
    rw [hd] at hdt
    simp only [show ('0' : Char).toNat = 48 from rfl] at hdt
    omega

theorem takeDigits_append (ds r : List Char)
    (hds : ∀ c ∈ ds, isDigitChar c = true)
    (hr : ∀ c rr, r = c :: rr → isDigitChar c = false) :
    takeDigits (ds ++ r) = (ds, r) := by
  induction ds with
  | nil =>
    cases r with
    | nil => rfl
    | cons c rr =>
      rw [List.nil_append, takeDigits, if_neg]
      rw [hr c rr rfl]
      simp
  | cons c cs ihds =>
    rw [List.cons_append, takeDigits,
      if_pos (by rw [hds c (List.mem_cons_self _ _)]),
      ihds fun x hx => hds x (List.mem_cons_of_mem _ hx)]

/-- A character list that cannot extend a preceding JSON integer literal. -/
def numBoundary : List Char → Prop
  | [] => True
  | c :: _ => isDigitChar c = false ∧ c ≠ '.' ∧ c ≠ 'e' ∧ c ≠ 'E'

theorem parseNum_intChars (n : Int) (rest : List Char) (hb : numBoundary rest) :
    parseNum (intChars n ++ rest) = some (.num n, rest) := by
  obtain ⟨d, ds, hnds⟩ : ∃ d ds, natChars n.natAbs = d :: ds := by
    cases hcase : natChars n.natAbs with
    | nil => exact absurd hcase (natChars_ne_nil _)
    | cons d ds => exact ⟨d, ds, rfl⟩
  have hdd : isDigitChar d = true :=
    natChars_all_digits _ d (by rw [hnds]; exact List.mem_cons_self _ _)
  have hrb : ∀ c rr, rest = c :: rr → isDigitChar c = false := by
    intro c rr hr
    rw [hr] at hb
    exact hb.1
  have htake : takeDigits (natChars n.natAbs ++ rest) = (natChars n.natAbs, rest) :=
    takeDigits_append _ _ (natChars_all_digits _) hrb
  have hnolead : ¬(d = '0' ∧ ds ≠ []) := by
    rintro ⟨h1, h2⟩
    exact h2 (natChars_no_leading_zero _ _ _ hnds h1)
  have hval : digitsVal (d :: ds) = n.natAbs := by
    rw [← hnds]
    exact digitsVal_natChars _
  have hdm : (d == '-') = false := by
    by_cases hc : d = '-'
    · rw [hc] at hdd
      exact absurd hdd (by decide)
    · simp [hc]
  have hrest : ∀ c rr, rest = c :: rr → ¬(c = '.' ∨ c = 'e' ∨ c = 'E') := by
    intro c rr hr
    rw [hr] at hb
    rintro (h | h | h)
    · exact hb.2.1 h
    · exact hb.2.2.1 h
    · exact hb.2.2.2 h
  by_cases hneg : n < 0
  · have htake2 : takeDigits (natChars n.natAbs ++ rest) = (d :: ds, rest) := by
      rw [htake, hnds]
    rw [intChars, if_pos hneg, List.cons_append, parseNum]
    simp only [beq_self_eq_true, if_true, List.tail_cons, htake2, if_neg hnolead]
    have hfin : -(digitsVal (d :: ds) : Int) = n := by
      rw [hval]
      omega
    cases hre : rest with
    | nil => simp [hfin]
    | cons c rr =>
      simp [hrest c rr hre, hfin]
  · have htake2 : takeDigits (d :: (ds ++ rest)) = (d :: ds, rest) := by
      rw [← List.cons_append, ← hnds, htake, hnds]
    rw [intChars, if_neg hneg, hnds, List.cons_append, parseNum]
    simp only [hdm, Bool.false_eq_true, if_false, htake2, if_neg hnolead]
    have hfin : (digitsVal (d :: ds) : Int) = n := by
      rw [hval]
      omega
    cases hre : rest with
    | nil => simp [hfin]
    | cons c rr =>
      simp [hrest c rr hre, hfin]

mutual

/-- Fuel sufficient for `parseV` to parse the rendering of a value. -/
def fuelV : JValue → Nat
  | .null => 1
  | .bool _ => 1
  | .num _ => 1
  | .str _ => 1
  | .arr [] => 1
  | .arr (v :: vs) => 1 + fuelItems v vs
  | .obj [] => 1
  | .obj (m :: ms) => 1 + fuelMembers m ms
termination_by v => sizeOf v

/-- Fuel sufficient for `parseItems` on rendered array items. -/
def fuelItems : JValue → List JValue → Nat
  | v, [] => 1 + fuelV v
  | v, w :: ws => 1 + max (fuelV v) (fuelItems w ws)
termination_by v vs => sizeOf v + sizeOf vs

/-- Fuel sufficient for `parseMembers` on rendered object members. -/
def fuelMembers : String × JValue → List (String × JValue) → Nat
  | (_, v), [] => 1 + fuelV v
  | (_, v), m2 :: ms => 1 + max (fuelV v) (fuelMembers m2 ms)
termination_by m ms => sizeOf m + sizeOf ms

end

theorem fuelV_pos (v : JValue) : 1 ≤ fuelV v := by
  cases v with
  | null => simp [fuelV]
  | bool b => simp [fuelV]
  | num n => simp [fuelV]
  | str s => simp [fuelV]
  | arr items => cases items <;> simp [fuelV]
  | obj ms => cases ms <;> simp [fuelV]

theorem fuelItems_pos (v : JValue) (vs : List JValue) : 1 ≤ fuelItems v vs := by
  cases vs <;> simp [fuelItems]

theorem fuelMembers_pos (m : String × JValue) (ms : List (String × JValue)) :
    1 ≤ fuelMembers m ms := by
  obtain ⟨k, v⟩ := m
  cases ms <;> simp [fuelMembers]

theorem fuelItems_ge (v : JValue) (vs : List JValue) : 1 + fuelV v ≤ fuelItems v vs := by
  cases vs with
  | nil => simp [fuelItems]
  | cons w ws =>
    rw [fuelItems]
    have := Nat.le_max_left (fuelV v) (fuelItems w ws)
    omega

theorem fuelItems_tail (v w : JValue) (ws : List JValue) :
    1 + fuelItems w ws ≤ fuelItems v (w :: ws) := by
  rw [fuelItems]
  have := Nat.le_max_right (fuelV v) (fuelItems w ws)
  omega

theorem fuelMembers_ge (k : String) (v : JValue) (ms : List (String × JValue)) :
    1 + fuelV v ≤ fuelMembers (k, v) ms := by
  cases ms with
  | nil => simp [fuelMembers]
  | cons m2 ms2 =>
    rw [fuelMembers]
    have := Nat.le_max_left (fuelV v) (fuelMembers m2 ms2)
    omega

theorem fuelMembers_tail (k : String) (v : JValue) (m2 : String × JValue)
    (ms : List (String × JValue)) :
    1 + fuelMembers m2 ms ≤ fuelMembers (k, v) (m2 :: ms) := by
  rw [fuelMembers]
  have := Nat.le_max_right (fuelV v) (fuelMembers m2 ms)
  omega

theorem ne_of_digit_of_not_digit (d c : Char) (hd : isDigitChar d = true)
    (hc : isDigitChar c = false) : d ≠ c := by
  intro h
  rw [h, hc] at hd
  exact Bool.false_ne_true hd

theorem intChars_shape (n : Int) :
    ∃ d ds, intChars n = d :: ds ∧ (d = '-' ∨ isDigitChar d = true) := by
  unfold intChars
  by_cases hneg : n < 0
  · exact ⟨'-', natChars n.natAbs, by rw [if_pos hneg], Or.inl rfl⟩
  · rw [if_neg hneg]
    obtain ⟨d, ds, hnds⟩ : ∃ d ds, natChars n.natAbs = d :: ds := by
      cases hcase : natChars n.natAbs with
      | nil => exact absurd hcase (natChars_ne_nil _)
      | cons d ds => exact ⟨d, ds, rfl⟩
    refine ⟨d, ds, hnds, Or.inr ?_⟩
    exact natChars_all_digits _ d (by rw [hnds]; exact List.mem_cons_self _ _)

theorem num_head_facts (d : Char) (hd : d = '-' ∨ isDigitChar d = true) :
    d ≠ 'n' ∧ d ≠ 't' ∧ d ≠ 'f' ∧ d ≠ '"' ∧ d ≠ '[' ∧ d ≠ lbrace ∧
      d ≠ ']' ∧ d ≠ rbrace := by
  rcases hd with h | h
  · subst h
    refine ⟨by decide, by decide, by decide, by decide, by decide, by decide,
      by decide, by decide⟩
  · exact ⟨ne_of_digit_of_not_digit _ _ h (by decide),
      ne_of_digit_of_not_digit _ _ h (by decide),
      ne_of_digit_of_not_digit _ _ h (by decide),
      ne_of_digit_of_not_digit _ _ h (by decide),
      ne_of_digit_of_not_digit _ _ h (by decide),
      ne_of_digit_of_not_digit _ _ h (by decide),
      ne_of_digit_of_not_digit _ _ h (by decide),
      ne_of_digit_of_not_digit _ _ h (by decide)⟩

/-- Every rendered value starts with a character that is not a closing
bracket or closing brace. -/
theorem render_head_shape (v : JValue) :
    ∃ c0 cs0, jsonRenderV v = c0 :: cs0 ∧ c0 ≠ ']' ∧ c0 ≠ rbrace := by
  cases v with
  | null => exact ⟨'n', _, by rw [jsonRenderV], by decide, by decide⟩
  | bool b =>
    cases b with
    | true => exact ⟨'t', _, by rw [jsonRenderV], by decide, by decide⟩
    | false => exact ⟨'f', _, by rw [jsonRenderV], by decide, by decide⟩
  | num n =>
    obtain ⟨d, ds, hic, hd⟩ := intChars_shape n
    have hf := num_head_facts d hd
    exact ⟨d, ds, by rw [jsonRenderV, hic], hf.2.2.2.2.2.2.1, hf.2.2.2.2.2.2.2⟩
  | str s => exact ⟨'"', _, by rw [jsonRenderV], by decide, by decide⟩
  | arr items =>
    cases items with
    | nil => exact ⟨'[', _, by rw [jsonRenderV], by decide, by decide⟩
    | cons w ws => exact ⟨'[', _, by rw [jsonRenderV], by decide, by decide⟩
  | obj ms =>
    cases ms with
    | nil => exact ⟨lbrace, _, by rw [jsonRenderV], by decide, by decide⟩
    | cons m2 ms2 => exact ⟨lbrace, _, by rw [jsonRenderV], by decide, by decide⟩

theorem parseV_num_dispatch (f : Nat) (d : Char) (cs : List Char)
    (hd : d = '-' ∨ isDigitChar d = true) :
    parseV (f + 1) (d :: cs) = parseNum (d :: cs) := by
  have hfacts := num_head_facts d hd
  simp only [parseV]
  simp [hfacts.1, hfacts.2.1, hfacts.2.2.1, hfacts.2.2.2.1, hfacts.2.2.2.2.1,
    hfacts.2.2.2.2.2.1, hd]

theorem parse_render_aux : ∀ f : Nat,
    (∀ (v : JValue) (rest : List Char), fuelV v ≤ f → numBoundary rest →
      parseV f (jsonRenderV v ++ rest) = some (v, rest)) ∧
    (∀ (v : JValue) (vs : List JValue) (rest : List Char), fuelItems v vs ≤ f →
      parseItems f (jsonRenderV v ++ (jsonRenderItems vs ++ ']' :: rest)) =
        some (v :: vs, rest)) ∧
    (∀ (k : String) (w : JValue) (ms : List (String × JValue)) (rest : List Char),
      fuelMembers (k, w) ms ≤ f →
      parseMembers f (jsonRenderMember (k, w) ++ (jsonRenderMembers ms ++ rbrace :: rest)) =
        some ((k, w) :: ms, rest)) := by
  intro f
  induction f with
  | zero =>
    refine ⟨fun v rest hf _ => absurd hf (by have := fuelV_pos v; omega),
      fun v vs rest hf => absurd hf (by have := fuelItems_pos v vs; omega),
      fun k w ms rest hf => absurd hf (by have := fuelMembers_pos (k, w) ms; omega)⟩
  | succ f ih =>
    obtain ⟨ihV, ihI, ihM⟩ := ih
    refine ⟨?_, ?_, ?_⟩
    · intro v rest hf hb
      cases v with
      | null => simp [jsonRenderV, parseV]
      | bool b => cases b <;> simp [jsonRenderV, parseV]
      | num n =>
        obtain ⟨d, ds, hic, hd⟩ := intChars_shape n
        have hrender : jsonRenderV (JValue.num n) = intChars n := by rw [jsonRenderV]
        rw [hrender, hic, List.cons_append, parseV_num_dispatch f d _ hd,
          ← List.cons_append, ← hic]
        exact parseNum_intChars n rest hb
      | str s =>
        have hrender : jsonRenderV (JValue.str s) = '"' :: (escapeList s.data ++ ['"']) := by
          rw [jsonRenderV]
        rw [hrender, List.cons_append, List.append_assoc, List.singleton_append]
        simp only [parseV]
        simp [parseStrBody_escapeList s.data [] rest]
      | arr items =>
        cases items with
        | nil => simp [jsonRenderV, parseV, show isDigitChar '[' = false from by decide]
        | cons w ws =>
          have hrender : jsonRenderV (JValue.arr (w :: ws)) =
              '[' :: (jsonRenderV w ++ jsonRenderItems ws ++ [']']) := by rw [jsonRenderV]
          have hpi : parseItems f (jsonRenderV w ++ (jsonRenderItems ws ++ ']' :: rest)) =
              some (w :: ws, rest) := by
            refine ihI w ws rest ?_
            rw [fuelV] at hf
            omega
          obtain ⟨c0, cs0, hc0, hc0r, hc0b⟩ := render_head_shape w
          have hpi2 : parseItems f (c0 :: (cs0 ++ (jsonRenderItems ws ++ ']' :: rest))) =
              some (w :: ws, rest) := by
            rw [← List.cons_append, ← hc0]
            exact hpi
          rw [hrender, List.cons_append, List.append_assoc, List.append_assoc,
            List.singleton_append, hc0, List.cons_append]
          simp only [parseV]
          simp [hc0r, hpi2, show isDigitChar '[' = false from by decide]
      | obj ms =>
        cases ms with
        | nil =>
          simp [jsonRenderV, parseV, lbrace, rbrace,
            show isDigitChar (Char.ofNat 123) = false from by decide]
        | cons m ms2 =>
          obtain ⟨k, w⟩ := m
          have hrender : jsonRenderV (JValue.obj ((k, w) :: ms2)) =
              lbrace :: (jsonRenderMember (k, w) ++ jsonRenderMembers ms2 ++ [rbrace]) := by
            rw [jsonRenderV]
          have hpm : parseMembers f
              (jsonRenderMember (k, w) ++ (jsonRenderMembers ms2 ++ rbrace :: rest)) =
              some ((k, w) :: ms2, rest) := by
            refine ihM k w ms2 rest ?_
            rw [fuelV] at hf
            omega
          have hmem : jsonRenderMember (k, w) =
              '"' :: (escapeList k.data ++ ['"', ':'] ++ jsonRenderV w) := by
            rw [jsonRenderMember]
          have hpm2 : parseMembers f
              ('"' :: (escapeList k.data ++ '"' :: ':' ::
                (jsonRenderV w ++ (jsonRenderMembers ms2 ++ rbrace :: rest)))) =
              some ((k, w) :: ms2, rest) := by
            rw [show escapeList k.data ++ '"' :: ':' ::
                  (jsonRenderV w ++ (jsonRenderMembers ms2 ++ rbrace :: rest)) =
                (escapeList k.data ++ ['"', ':'] ++ jsonRenderV w) ++
                  (jsonRenderMembers ms2 ++ rbrace :: rest) from by simp]
            rw [← List.cons_append, ← hmem]
            exact hpm
          rw [hrender, List.cons_append, List.append_assoc, List.append_assoc,
            List.singleton_append, hmem, List.cons_append]
          simp only [parseV]
          simp only [lbrace, rbrace] at hpm2 ⊢
          simp [hpm2, show isDigitChar (Char.ofNat 123) = false from by decide]
    · intro v vs rest hfi
      have hbX : numBoundary (jsonRenderItems vs ++ ']' :: rest) := by
        cases vs with
        | nil =>
          rw [jsonRenderItems, List.nil_append]
          exact ⟨by decide, by decide, by decide, by decide⟩
        | cons w ws =>
          rw [jsonRenderItems, List.cons_append]
          exact ⟨by decide, by decide, by decide, by decide⟩
      have h1 : parseV f (jsonRenderV v ++ (jsonRenderItems vs ++ ']' :: rest)) =
          some (v, jsonRenderItems vs ++ ']' :: rest) := by
        refine ihV v _ ?_ hbX
        have := fuelItems_ge v vs
        omega
      simp only [parseItems]
      rw [h1]
      cases vs with
      | nil => simp [jsonRenderItems]
      | cons w ws =>
        have h2 : parseItems f (jsonRenderV w ++ (jsonRenderItems ws ++ ']' :: rest)) =
            some (w :: ws, rest) := by
          refine ihI w ws rest ?_
          have := fuelItems_tail v w ws
          omega
        rw [jsonRenderItems, List.cons_append]
        simp [h2]
    · intro k w ms rest hfm
      have hbX : numBoundary (jsonRenderMembers ms ++ rbrace :: rest) := by
        cases ms with
        | nil =>
          rw [jsonRenderMembers, List.nil_append]
          exact ⟨by decide, by decide, by decide, by decide⟩
        | cons m2 ms2 =>
          rw [jsonRenderMembers, List.cons_append]
          exact ⟨by decide, by decide, by decide, by decide⟩
      have hmem : jsonRenderMember (k, w) =
          '"' :: (escapeList k.data ++ ['"', ':'] ++ jsonRenderV w) := by
        rw [jsonRenderMember]
      have h1 : parseV f (jsonRenderV w ++ (jsonRenderMembers ms ++ rbrace :: rest)) =
          some (w, jsonRenderMembers ms ++ rbrace :: rest) := by
        refine ihV w _ ?_ hbX
        have := fuelMembers_ge k w ms
        omega
      rw [hmem, List.cons_append]
      simp only [parseMembers]
      rw [show (escapeList k.data ++ ['"', ':'] ++ jsonRenderV w) ++
            (jsonRenderMembers ms ++ rbrace :: rest) =
          escapeList k.data ++ '"' :: (':' ::
            (jsonRenderV w ++ (jsonRenderMembers ms ++ rbrace :: rest))) from by
        simp]
      rw [parseStrBody_escapeList k.data [] _]
      simp only [List.reverse_nil, List.nil_append, string_mk_data]
      rw [h1]
      cases ms with
      | nil =>
        rw [jsonRenderMembers, List.nil_append]
        simp [rbrace, lbrace]
      | cons m2 ms2 =>
        obtain ⟨k2, w2⟩ := m2
        have h2 : parseMembers f
            (jsonRenderMember (k2, w2) ++ (jsonRenderMembers ms2 ++ rbrace :: rest)) =
            some ((k2, w2) :: ms2, rest) := by
          refine ihM k2 w2 ms2 rest ?_
          have := fuelMembers_tail k w (k2, w2) ms2
          omega
        rw [jsonRenderMembers, List.cons_append]
        simp [h2]

theorem render_len_pos (v : JValue) : 1 ≤ (jsonRenderV v).length := by
  cases v with
  | null => simp [jsonRenderV]
  | bool b => cases b <;> simp [jsonRenderV]
  | num n =>
    obtain ⟨d, ds, hic, _⟩ := intChars_shape n
    have hr : jsonRenderV (JValue.num n) = intChars n := by rw [jsonRenderV]
    rw [hr, hic]
    simp
  | str s => simp [jsonRenderV]
  | arr items => cases items <;> simp [jsonRenderV]
  | obj ms => cases ms <;> simp [jsonRenderV]

mutual

theorem fuelV_le_len (v : JValue) : fuelV v ≤ (jsonRenderV v).length + 1 := by
  cases v with
  | null => simp [fuelV, jsonRenderV]
  | bool b => cases b <;> simp [fuelV, jsonRenderV]
  | num n => rw [fuelV]; omega
  | str s => rw [fuelV]; omega
  | arr items =>
    cases items with
    | nil => simp [fuelV, jsonRenderV]
    | cons w ws =>
      rw [fuelV]
      have h := fuelItems_le_len w ws
      have hr : jsonRenderV (JValue.arr (w :: ws)) =
          '[' :: (jsonRenderV w ++ jsonRenderItems ws ++ [']']) := by rw [jsonRenderV]
      rw [hr]
      simp only [List.length_cons, List.length_append, List.length_singleton]
      omega
  | obj ms =>
    cases ms with
    | nil => simp [fuelV, jsonRenderV]
    | cons m ms2 =>
      obtain ⟨k, w⟩ := m
      rw [fuelV]
      have h := fuelMembers_le_len k w ms2
      have hr : jsonRenderV (JValue.obj ((k, w) :: ms2)) =
          lbrace :: (jsonRenderMember (k, w) ++ jsonRenderMembers ms2 ++ [rbrace]) := by
        rw [jsonRenderV]
      rw [hr]
      simp only [List.length_cons, List.length_append, List.length_singleton]
      omega
termination_by sizeOf v

theorem fuelItems_le_len (v : JValue) (vs : List JValue) :
    fuelItems v vs ≤ (jsonRenderV v).length + (jsonRenderItems vs).length + 2 := by
  cases vs with
  | nil =>
    rw [fuelItems]
    have h := fuelV_le_len v
    simp only [jsonRenderItems, List.length_nil]
    omega
  | cons w ws =>
    rw [fuelItems]
    have h1 := fuelV_le_len v
    have h2 := fuelItems_le_len w ws
    have hp := render_len_pos v
    have hr : jsonRenderItems (w :: ws) = ',' :: (jsonRenderV w ++ jsonRenderItems ws) := by
      rw [jsonRenderItems]
    rw [hr]
    simp only [List.length_cons, List.length_append]
    rcases Nat.le_total (fuelV v) (fuelItems w ws) with hc | hc
    · rw [Nat.max_eq_right hc]
      omega
    · rw [Nat.max_eq_left hc]
      omega
termination_by sizeOf v + sizeOf vs

theorem fuelMembers_le_len (k : String) (w : JValue) (ms : List (String × JValue)) :
    fuelMembers (k, w) ms ≤
      (jsonRenderMember (k, w)).length + (jsonRenderMembers ms).length + 2 := by
  have hmemlen : (jsonRenderMember (k, w)).length =
      1 + (escapeList k.data).length + 2 + (jsonRenderV w).length := by
    rw [jsonRenderMember]
    simp only [List.length_cons, List.length_append, List.length_nil]
    omega
  cases ms with
  | nil =>
    rw [fuelMembers]
    have h := fuelV_le_len w
    have h0 : (jsonRenderMembers ([] : List (String × JValue))).length = 0 := by
      rw [jsonRenderMembers]
      rfl
    rw [h0, hmemlen]
    omega
  | cons m2 ms2 =>
    obtain ⟨k2, w2⟩ := m2
    rw [fuelMembers]
    have h1 := fuelV_le_len w
    have h2 := fuelMembers_le_len k2 w2 ms2
    have hr : jsonRenderMembers ((k2, w2) :: ms2) =
        ',' :: (jsonRenderMember (k2, w2) ++ jsonRenderMembers ms2) := by
      rw [jsonRenderMembers]
    rw [hr, hmemlen]
    simp only [List.length_cons, List.length_append]
    rcases Nat.le_total (fuelV w) (fuelMembers (k2, w2) ms2) with hc | hc
    · rw [Nat.max_eq_right hc]
      omega
    · rw [Nat.max_eq_left hc]
      omega
termination_by sizeOf w + sizeOf ms

end

/-- The JSON codec round-trip: parsing the compact rendering of any value
recovers exactly that value. -/
theorem jsonParseChars_render (v : JValue) : jsonParseChars (jsonRenderV v) = some v := by
  have h := (parse_render_aux ((jsonRenderV v).length + 1)).1 v []
    (fuelV_le_len v) trivial
  rw [List.append_nil] at h
  unfold jsonParseChars
  rw [h]

/-! ## Wire packet codec (`WssBridgePackData.serialize` / `deserialize`) -/

/-- Runtime packet object (`WssBridgePackData` instance): `route`, `reqId`
and `message` as they exist at runtime; TS annotations are compile-time
only, so each field may hold any JS value or be `undefined` (`none`). -/
structure WssBridgePackData where
  route : Option JValue
  reqId : Option JValue
  message : Option JValue
deriving DecidableEq, Repr

/-- JSON object produced by `JSON.stringify` on a packet: fields in
declaration order `route`, `reqId`, `message`, `undefined` fields omitted. -/
def packJson (p : WssBridgePackData) : JValue :=
  .obj ((match p.route with | some r => [("route", r)] | none => []) ++
    (match p.reqId with | some q => [("reqId", q)] | none => []) ++
    (match p.message with | some m => [("message", m)] | none => []))

/-- JS own-property lookup on a parsed JSON value (for duplicate keys from
`JSON.parse` the last occurrence wins); non-objects yield `undefined`. -/
def jsLookup (v : JValue) (key : String) : Option JValue :=
  match v with
  | .obj kvs => (kvs.reverse.find? fun kv => kv.1 == key).map fun kv => kv.2
  | _ => none

/-- `new WssBridgePackData(obj.route, obj.reqId, obj.message)` on a parsed
JSON value; property access on `null` throws, which the surrounding
`try/catch` turns into a `null` result (`none`). -/
def packOfJson (v : JValue) : Option WssBridgePackData :=
  match v with
  | .null => none
  | _ => some ⟨jsLookup v "route", jsLookup v "reqId", jsLookup v "message"⟩

/-- One WebSocket frame: binary (`ArrayBuffer`, as a list of 32-bit words)
or text. -/
inductive WireData where
  | binary : List Nat → WireData
  | text : String → WireData
deriving DecidableEq

/-- The crypto-js primitives called by the codec, abstracted: AES-256-CBC
with PKCS#7 padding, HMAC-SHA256 key derivation, Base64.  Word lists stand
for `CryptoJS.lib.WordArray` contents. -/
structure CryptoPrims where
  aesEnc : List Nat → List Nat → String → List Nat
  aesDec : List Nat → List Nat → List Nat → Option String
  hmacSha256 : List Nat → String → List Nat
  b64Enc : List Nat → String
  b64Dec : String → List Nat

/-- `WssBridgePackData.serialize(pack, pwd, binary)`; the random 16-byte
salt and iv (4 words each) are explicit arguments.  JS `if (pwd)` treats
`null` and the empty string as falsy (plaintext mode). -/
def serialize (cp : CryptoPrims) (pack : WssBridgePackData) (pwd : Option String)
    (binary : Bool) (salt iv : List Nat) : WireData :=
  let str := String.mk (jsonRenderV (packJson pack))
  match pwd with
  | some pw =>
    if pw = "" then .text str
    else
      let key := cp.hmacSha256 salt pw
      let body := cp.aesEnc key iv str
      let words := salt ++ iv ++ body
      if binary then .binary words else .text (cp.b64Enc words)
  | none => .text str

/-- `WssBridgePackData.deserialize(data, pwd)`: split `salt ∥ iv ∥ body`,
re-derive the key, decrypt, JSON-parse; in plaintext mode an `ArrayBuffer`
input yields the empty object and text is JSON-parsed.  Every failure path
returns `none` (the `try/catch` boundary). -/
def deserialize (cp : CryptoPrims) (data : WireData) (pwd : Option String) :
    Option WssBridgePackData :=
  let decodePlain : WireData → Option WssBridgePackData := fun d =>
    match d with
    | .binary _ => some ⟨none, none, none⟩
    | .text s =>
      match jsonParse s with
      | some obj => packOfJson obj
      | none => none
  match pwd with
  | some pw =>
    if pw = "" then decodePlain data
    else
      let words := match data with
        | .binary ws => ws
        | .text s => cp.b64Dec s
      let salt := words.take 4
      let iv := (words.drop 4).take 4
      let key := cp.hmacSha256 salt pw
      let body := words.drop 8
      match cp.aesDec key iv body with
      | none => none
      | some decRes =>
        match jsonParse decRes with
        | some obj => packOfJson obj
        | none => none
  | none => decodePlain data

theorem packOfJson_packJson (p : WssBridgePackData) : packOfJson (packJson p) = some p := by
  obtain ⟨r, q, m⟩ := p
  cases r <;> cases q <;> cases m <;>
    simp [packJson, packOfJson, jsLookup, List.find?]

/-- Round-trip of the packet codec for any packet, any password mode and
both binary modes, given the library contracts of AES and Base64. -/
theorem deserialize_serialize (cp : CryptoPrims) (pack : WssBridgePackData)
    (pwd : Option String) (binary : Bool) (salt iv : List Nat)
    (hsalt : salt.length = 4) (hiv : iv.length = 4)
    (haes : ∀ k i s, cp.aesDec k i (cp.aesEnc k i s) = some s)
    (hb64 : ∀ ws, cp.b64Dec (cp.b64Enc ws) = ws) :
    deserialize cp (serialize cp pack pwd binary salt iv) pwd = some pack := by
  have hplain : ∀ s : String, s.data = jsonRenderV (packJson pack) →
      (match jsonParse s with
        | some obj => packOfJson obj
        | none => none) = some pack := by
    intro s hs
    have hp : jsonParse s = some (packJson pack) := by
      unfold jsonParse
      rw [hs]
      exact jsonParseChars_render (packJson pack)
    rw [hp]
    exact packOfJson_packJson pack
  have hwords : ∀ pw : String,
      (match cp.aesDec
          (cp.hmacSha256 ((salt ++ iv ++ cp.aesEnc (cp.hmacSha256 salt pw) iv
            (String.mk (jsonRenderV (packJson pack)))).take 4) pw)
          (((salt ++ iv ++ cp.aesEnc (cp.hmacSha256 salt pw) iv
            (String.mk (jsonRenderV (packJson pack)))).drop 4).take 4)
          ((salt ++ iv ++ cp.aesEnc (cp.hmacSha256 salt pw) iv
            (String.mk (jsonRenderV (packJson pack)))).drop 8) with
        | none => none
        | some decRes =>
          match jsonParse decRes with
          | some obj => packOfJson obj
          | none => none) = some pack := by
    intro pw
    set body := cp.aesEnc (cp.hmacSha256 salt pw) iv
      (String.mk (jsonRenderV (packJson pack))) with hbody
    have h1 : (salt ++ iv ++ body).take 4 = salt := by
      rw [List.append_assoc, ← hsalt, List.take_left]
    have hd : (salt ++ iv ++ body).drop 4 = iv ++ body := by
      rw [List.append_assoc, ← hsalt, List.drop_left]
    have h2 : ((salt ++ iv ++ body).drop 4).take 4 = iv := by
      rw [hd, ← hiv, List.take_left]
    have h3 : (salt ++ iv ++ body).drop 8 = body := by
      have hlen : (salt ++ iv).length = 8 := by
        rw [List.length_append, hsalt, hiv]
      rw [← hlen, List.drop_left]
    rw [h1, h2, h3, haes]
    exact hplain _ rfl
  match pwd with
  | none =>
    simp only [serialize, deserialize]
    exact hplain _ rfl
  | some pw =>
    by_cases hpw : pw = ""
    · simp only [serialize, deserialize, if_pos hpw]
      exact hplain _ rfl
    · simp only [serialize, deserialize, if_neg hpw]
      cases binary with
      | true => exact hwords pw
      | false =>
        simp only [Bool.false_eq_true, if_false, hb64]
        exact hwords pw

/-! ### A concrete instantiation of the crypto primitives (for witnesses) -/

/-- Unary rendering of a word list (witness Base64 stand-in). -/
def unaryChars : List Nat → List Char
  | [] => []
  | n :: ns => List.replicate n 'a' ++ 'b' :: unaryChars ns

/-- Inverse of `unaryChars`. -/
def unaryParse : List Char → Nat → List Nat
  | [], _ => []
  | c :: cs, cur => if c = 'b' then cur :: unaryParse cs 0 else unaryParse cs (cur + 1)

theorem unaryParse_replicate (n : Nat) (cs : List Char) (cur : Nat) :
    unaryParse (List.replicate n 'a' ++ cs) cur = unaryParse cs (cur + n) := by
  induction n generalizing cur with
  | zero => simp
  | succ k ihk =>
    rw [List.replicate_succ, List.cons_append, unaryParse, if_neg (by decide), ihk]
    congr 1
    omega

theorem unaryParse_unaryChars (ws : List Nat) : unaryParse (unaryChars ws) 0 = ws := by
  induction ws with
  | nil => rfl
  | cons n ns ihn =>
    rw [unaryChars, unaryParse_replicate, unaryParse, if_pos rfl, ihn]
    congr 1
    omega

/-- Concrete crypto primitives satisfying the library contracts: a cipher
that transcribes code points and the unary wire text codec. -/
def idCrypto : CryptoPrims where
  aesEnc := fun _ _ s => s.data.map Char.toNat
  aesDec := fun _ _ ws => some (String.mk (ws.map Char.ofNat))
  hmacSha256 := fun _ _ => []
  b64Enc := fun ws => String.mk (unaryChars ws)
  b64Dec := fun s => unaryParse s.data 0

theorem idCrypto_aes (k i : List Nat) (s : String) :
    idCrypto.aesDec k i (idCrypto.aesEnc k i s) = some s := by
  simp only [idCrypto, List.map_map]
  have hmap : s.data.map (Char.ofNat ∘ Char.toNat) = s.data := by
    have h1 : s.data.map (Char.ofNat ∘ Char.toNat) = s.data.map id :=
      List.map_congr_left fun c _ => Char.ofNat_toNat c
    rw [h1, List.map_id]
  rw [hmap]

theorem idCrypto_b64 (ws : List Nat) : idCrypto.b64Dec (idCrypto.b64Enc ws) = ws := by
  simp only [idCrypto]
  exact unaryParse_unaryChars ws

/-! ## Server model (`WssServer`) -/

namespace RouteCode

/-- `'$heartick$'` — heartbeat route. -/
def ROUTE_HEARTICK : String := "$heartick$"

/-- `'$response$'` — response route. -/
def ROUTE_RESPONSE : String := "$response$"

/-- `'$innerP2P$'` — cluster point-to-point route. -/
def ROUTE_INNERP2P : String := "$innerP2P$"

/-- `'$innerGRP'` — cluster group route, exactly as written in the source
(`WssServer.ts` line 709), without a trailing dollar sign. -/
def ROUTE_INNERGRP : String := "$innerGRP"

/-- `'$innerALL$'` — cluster broadcast route. -/
def ROUTE_INNERALL : String := "$innerALL$"

/-- `'$innerRMC$'` — cluster remote-method route. -/
def ROUTE_INNERRMC : String := "$innerRMC$"

end RouteCode

/-- `WssServerConfig` with the constructor defaults applied. -/
structure WssServerConfig where
  pwd : Option String
  secret : Option String
  binary : Bool
  cycle : Nat
  timeout : Nat
  reqIdCache : Nat

/-- The defaults assigned in the `WssServer` constructor. -/
def defaultServerConfig : WssServerConfig :=
  { pwd := none, secret := none, binary := false,
    cycle := 60 * 1000, timeout := 60 * 1000 * 3, reqIdCache := 32 }

mutual

/-- JS `String(v)` coercion of a JSON value (`Array.prototype.toString`
joins with commas; objects give `[object Object]`). -/
def jsStringOfJValue : JValue → String
  | .null => "null"
  | .bool true => "true"
  | .bool false => "false"
  | .num n => String.mk (intChars n)
  | .str s => s
  | .arr items => jsArrayJoin items
  | .obj _ => "[object Object]"
termination_by v => sizeOf v

/-- JS `Array.prototype.join(',')`: `null` elements become empty strings. -/
def jsArrayJoin : List JValue → String
  | [] => ""
  | [JValue.null] => ""
  | [v] => jsStringOfJValue v
  | JValue.null :: vs => "," ++ jsArrayJoin vs
  | v :: vs => jsStringOfJValue v ++ "," ++ jsArrayJoin vs
termination_by l => sizeOf l

end

/-- JS string coercion of a possibly-`undefined` value, as used by the
string concatenation in `_generateInnerData` / `_validateInnerData`.
(The numeric-addition corner of JS `+`, reached only when both operands
are non-string primitives, is modelled as string concatenation.) -/
def jsShow : Option JValue → String
  | none => "undefined"
  | some v => jsStringOfJValue v

/-- The configured cluster secret as it appears in string concatenation
(JS coerces a `null` secret to `"null"`). -/
def secretStr : Option String → String
  | none => "null"
  | some s => s

/-- JS truthiness of a possibly-`undefined` value. -/
def jsTruthy : Option JValue → Bool
  | none => false
  | some .null => false
  | some (.bool b) => b
  | some (.num n) => decide (n ≠ 0)
  | some (.str s) => decide (s ≠ "")
  | some (.arr _) => true
  | some (.obj _) => true

/-- `WssServer._generateInnerData(tid, route, message)`: the signed inner
cluster envelope.  The per-dispatch nonce `word` (a UUID in the source) is
an explicit argument; `sign = md5(route + word + secret)`. -/
def generateInnerData (md5 : String → String) (secret : Option String)
    (tid : Option JValue) (route : String) (message : JValue) (word : String) : JValue :=
  .obj ((if jsTruthy tid then [("tid", tid.getD JValue.null)] else []) ++
    [("route", .str route), ("message", message), ("word", .str word),
      ("sign", .str (md5 (route ++ word ++ secretStr secret)))])

/-- `WssServer._validateInnerData(data)`:
`getMd5(data.route + data.word + secret) === data.sign`. -/
def validateInner (md5 : String → String) (secret : Option String) (m : JValue) : Bool :=
  match jsLookup m "sign" with
  | some (.str s) =>
      md5 (jsShow (jsLookup m "route") ++ jsShow (jsLookup m "word") ++ secretStr secret) == s
  | _ => false

/-- `WssSession.updateReqId(reqId, cacheSize)`: returns whether the id is
novel, together with the updated ring (`lastIndexOf ≥ 0` is membership;
on overflow `splice(0, floor(cacheSize / 2))` drops the oldest half). -/
def updateReqId (ring : List Int) (reqId : Int) (cacheSize : Nat) : Bool × List Int :=
  if reqId ∈ ring then (false, ring)
  else
    let ring2 := if cacheSize ≤ ring.length then ring.drop (cacheSize / 2) else ring
    (true, ring2 ++ [reqId])

/-- Shape validation of `_onWebSocketMessage`: route must be a string,
reqId a number, message present and non-null (else close 4002). -/
def validShape (p : WssBridgePackData) : Bool :=
  (match p.route with | some (.str _) => true | _ => false) &&
  (match p.reqId with | some (.num _) => true | _ => false) &&
  (match p.message with | some m => !(m == JValue.null) | none => false)

/-- The externally visible effect that `_onWebSocketMessage` selects for a
packet once it passes the replay gate. -/
inductive ServerAction where
  | closeConn : Nat → String → ServerAction
  | heartEcho : Int → JValue → ServerAction
  | pushSessionAct : Option JValue → Option JValue → Option JValue → ServerAction
  | pushChannelAct : Option JValue → Option JValue → Option JValue → ServerAction
  | broadcastAct : Option JValue → Option JValue → ServerAction
  | remoteCall : String → Int → Option JValue → ServerAction
  | routerCall : String → ServerAction
deriving DecidableEq, Repr

/-- Route dispatch of `_onWebSocketMessage` after decode, shape check and
replay gate: reserved routes in source order, then user routes, else 4006. -/
def routeDispatch (md5 : String → String) (secret : Option String)
    (remoteRoutes routerRoutes : List String) (r : String) (n : Int) (m : JValue) :
    ServerAction :=
  if r = RouteCode.ROUTE_HEARTICK then .heartEcho n m
  else if r = RouteCode.ROUTE_INNERP2P then
    if validateInner md5 secret m then
      .pushSessionAct (jsLookup m "tid") (jsLookup m "route") (jsLookup m "message")
    else .closeConn 4004 "sign error"
  else if r = RouteCode.ROUTE_INNERGRP then
    if validateInner md5 secret m then
      .pushChannelAct (jsLookup m "tid") (jsLookup m "route") (jsLookup m "message")
    else .closeConn 4004 "sign error"
  else if r = RouteCode.ROUTE_INNERALL then
    if validateInner md5 secret m then
      .broadcastAct (jsLookup m "route") (jsLookup m "message")
    else .closeConn 4004 "sign error"
  else if r = RouteCode.ROUTE_INNERRMC then
    if validateInner md5 secret m then
      if jsShow (jsLookup m "route") ∈ remoteRoutes then
        .remoteCall (jsShow (jsLookup m "route")) n (jsLookup m "message")
      else .closeConn 4005 "remote error"
    else .closeConn 4004 "sign error"
  else if r ∈ routerRoutes then .routerCall r
  else .closeConn 4006 "route error"

/-- Result of one `_onWebSocketMessage` invocation: the session ring after
the call and the selected action. -/
structure RxResult where
  ring : List Int
  action : ServerAction
deriving DecidableEq, Repr

/-- `WssServer._onWebSocketMessage(session, data)`: decode (4001 on
failure), shape check (4002), replay gate (4003), then route dispatch. -/
def onWebSocketMessage (cp : CryptoPrims) (md5 : String → String)
    (cfg : WssServerConfig) (remoteRoutes routerRoutes : List String)
    (ring : List Int) (data : WireData) : RxResult :=
  match deserialize cp data cfg.pwd with
  | none => ⟨ring, .closeConn 4001 "parse error"⟩
  | some pack =>
    match pack.route, pack.reqId, pack.message with
    | some (.str r), some (.num n), some m =>
      if m == JValue.null then ⟨ring, .closeConn 4002 "format error"⟩
      else
        match updateReqId ring n cfg.reqIdCache with
        | (false, _) => ⟨ring, .closeConn 4003 "repeat error"⟩
        | (true, ring2) =>
          ⟨ring2, routeDispatch md5 cfg.secret remoteRoutes routerRoutes r n m⟩
    | _, _, _ => ⟨ring, .closeConn 4002 "format error"⟩

/-- `WssServer.pushClusterChannel(appName, gid, route, message,
dispatchCallback)`: the list of `(url, wire route, inner envelope)`
requests issued through the peer bridge clients. -/
def pushClusterChannel (md5 : String → String) (secret : Option String)
    (cluster : List String) (gid : Option JValue) (route : String)
    (message : JValue) (word : String)
    (dispatchCallback : Option (List String → Option JValue → JValue → Nat)) :
    List (String × String × JValue) :=
  let innerData := generateInnerData md5 secret gid route message word
  match dispatchCallback with
  | some cb =>
    [(cluster.getD (cb cluster gid innerData) "", RouteCode.ROUTE_INNERGRP, innerData)]
  | none => cluster.map fun url => (url, RouteCode.ROUTE_INNERGRP, innerData)

/-! ## Server registries: sessions, UID binding and channels -/

/-- Association-list model of a JS object map (unique keys). -/
def alGet {α β : Type} [DecidableEq α] : List (α × β) → α → Option β
  | [], _ => none
  | (k, v) :: t, key => if k = key then some v else alGet t key

/-- Key assignment `obj[key] = val`. -/
def alSet {α β : Type} [DecidableEq α] : List (α × β) → α → β → List (α × β)
  | [], key, val => [(key, val)]
  | (k, v) :: t, key, val =>
    if k = key then (key, val) :: t else (k, v) :: alSet t key val

/-- Key removal `delete obj[key]`. -/
def alErase {α β : Type} [DecidableEq α] : List (α × β) → α → List (α × β)
  | [], _ => []
  | (k, v) :: t, key => if k = key then alErase t key else (k, v) :: alErase t key

/-- Server-side per-connection session state (`WssSession`): UID slot,
joined channel keys, socket handle presence and the close code passed to
the first effective `close`. -/
structure SessionR where
  uid : Option String
  channels : List String
  sockOpen : Bool
  closeCode : Option Nat
deriving DecidableEq, Repr

/-- `GroupChannel`: member count and member session ids. -/
structure GroupChannel where
  count : Int
  sessions : List Nat
deriving DecidableEq, Repr

/-- The three `WssServer` registries touched by binding and channels:
`_socketMap`, `_sessionMap` (uid string → session id), `_channelMap`. -/
structure SrvState where
  socketMap : List (Nat × SessionR)
  sessionMap : List (String × Nat)
  channelMap : List (String × GroupChannel)
deriving DecidableEq, Repr

/-- Fetch a session record by id. -/
def getSess (st : SrvState) (sid : Nat) : Option SessionR := alGet st.socketMap sid

/-- Update the session object with the given id in place. -/
def updSess (st : SrvState) (sid : Nat) (f : SessionR → SessionR) : SrvState :=
  { st with socketMap := st.socketMap.map fun kv =>
      if kv.1 = sid then (kv.1, f kv.2) else kv }

/-- Events emitted by the UID-binding operations, in program order. -/
inductive BindEvent where
  | unbound : Nat → String → BindEvent
  | closed : Nat → Nat → BindEvent
deriving DecidableEq, Repr

/-- `WssServer.unbindUid(session)`: no-op when unbound, otherwise delete
`_sessionMap[session.uid.toString()]` and clear the session UID slot. -/
def unbindUid (st : SrvState) (sid : Nat) : SrvState × List BindEvent :=
  match getSess st sid with
  | some s =>
    match s.uid with
    | some u =>
      let st1 := updSess st sid fun x => { x with uid := none }
      ({ st1 with sessionMap := alErase st1.sessionMap u }, [.unbound sid u])
    | none => (st, [])
  | none => (st, [])

/-- `WssSession.close(code, reason)`: closes the socket once and drops the
handle (idempotent). -/
def closeSession (st : SrvState) (sid : Nat) (code : Nat) : SrvState × List BindEvent :=
  match getSess st sid with
  | some s =>
    if s.sockOpen then
      (updSess st sid fun x => { x with sockOpen := false, closeCode := some code },
        [.closed sid code])
    else (st, [])
  | none => (st, [])

/-- `WssServer.bindUid(session, uid, closeold)`: unbind the displaced
session first, close it with 4009 when `closeold`, then unbind any prior
UID of the incoming session and install the new mapping. -/
def bindUid (st : SrvState) (sid : Nat) (u : String) (closeold : Bool) :
    SrvState × List BindEvent :=
  let p1 : SrvState × List BindEvent :=
    match alGet st.sessionMap u with
    | some oldSid =>
      let q := unbindUid st oldSid
      if closeold then
        let q2 := closeSession q.1 oldSid 4009
        (q2.1, q.2 ++ q2.2)
      else q
    | none => (st, [])
  let p2 := unbindUid p1.1 sid
  let st3 := updSess p2.1 sid fun x => { x with uid := some u }
  ({ st3 with sessionMap := alSet st3.sessionMap u sid }, p1.2 ++ p2.2)

/-- `WssServer.joinChannel(session, gid)`: create the channel lazily on
first join; ignore members already present. -/
def joinChannel (st : SrvState) (sid : Nat) (gid : String) : SrvState :=
  let ch := (alGet st.channelMap gid).getD ⟨0, []⟩
  if sid ∈ ch.sessions then { st with channelMap := alSet st.channelMap gid ch }
  else
    let ch2 : GroupChannel := ⟨ch.count + 1, ch.sessions ++ [sid]⟩
    let st1 := updSess st sid fun x =>
      { x with channels := if gid ∈ x.channels then x.channels else x.channels ++ [gid] }
    { st1 with channelMap := alSet st1.channelMap gid ch2 }

/-- `WssServer.quitChannel(session, gid)`: remove the member if present and
delete the channel when its count drops to zero (or below). -/
def quitChannel (st : SrvState) (sid : Nat) (gid : String) : SrvState :=
  match alGet st.channelMap gid with
  | none => st
  | some ch =>
    let p : GroupChannel × SrvState :=
      if sid ∈ ch.sessions then
        (⟨ch.count - 1, ch.sessions.erase sid⟩,
          updSess st sid fun x => { x with channels := x.channels.erase gid })
      else (ch, st)
    if p.1.count ≤ 0 then { p.2 with channelMap := alErase p.2.channelMap gid }
    else { p.2 with channelMap := alSet p.2.channelMap gid p.1 }

/-- `WssServer.deleteChannel(gid)`: make every member quit, then drop the
channel from the registry. -/
def deleteChannel (st : SrvState) (gid : String) : SrvState :=
  match alGet st.channelMap gid with
  | none => st
  | some ch =>
    let st1 := ch.sessions.foldl (fun acc sid =>
      updSess acc sid fun x => { x with channels := x.channels.erase gid }) st
    { st1 with channelMap := alErase st1.channelMap gid }

/-- Connection accept: a fresh session enters `_socketMap`. -/
def newSession (st : SrvState) (sid : Nat) : SrvState :=
  { st with socketMap := alSet st.socketMap sid ⟨none, [], true, none⟩ }

/-- The socket close handler: quit every joined channel, unbind any UID,
remove the session from `_socketMap`. -/
def onSocketClose (st : SrvState) (sid : Nat) : SrvState :=
  let chans := match getSess st sid with
    | some s => s.channels
    | none => []
  let st1 := chans.foldl (fun acc gid => quitChannel acc sid gid) st
  let st2 := (unbindUid st1 sid).1
  { st2 with socketMap := alErase st2.socketMap sid }

/-- One server operation among those that can touch the registries. -/
inductive SrvStep : SrvState → SrvState → Prop where
  | newSess (st : SrvState) (sid : Nat) : SrvStep st (newSession st sid)
  | bind (st : SrvState) (sid : Nat) (u : String) (closeold : Bool) :
      SrvStep st (bindUid st sid u closeold).1
  | unbind (st : SrvState) (sid : Nat) : SrvStep st (unbindUid st sid).1
  | join (st : SrvState) (sid : Nat) (gid : String) : SrvStep st (joinChannel st sid gid)
  | quit (st : SrvState) (sid : Nat) (gid : String) : SrvStep st (quitChannel st sid gid)
  | del (st : SrvState) (gid : String) : SrvStep st (deleteChannel st gid)
  | close (st : SrvState) (sid : Nat) (code : Nat) :
      SrvStep st (closeSession st sid code).1
  | sockClose (st : SrvState) (sid : Nat) : SrvStep st (onSocketClose st sid)

/-- States reachable from the empty server through the registry operations. -/
inductive SrvReachable : SrvState → Prop where
  | init : SrvReachable ⟨[], [], []⟩
  | step {st st2 : SrvState} : SrvReachable st → SrvStep st st2 → SrvReachable st2

/-- The channel-registry invariant of the specification: every registered
channel has `count` equal to its member count and is non-empty. -/
def chanInv (st : SrvState) : Prop :=
  ∀ gid ch, alGet st.channelMap gid = some ch →
    ch.count = ch.sessions.length ∧ 0 < ch.count

/-- Internal strengthening: members are also pairwise distinct. -/
def chanInvS (st : SrvState) : Prop :=
  ∀ gid ch, alGet st.channelMap gid = some ch →
    ch.count = ch.sessions.length ∧ 0 < ch.count ∧ ch.sessions.Nodup

theorem alGet_alSet_self {α β : Type} [DecidableEq α] (l : List (α × β)) (k : α) (v : β) :
    alGet (alSet l k v) k = some v := by
  induction l with
  | nil => simp [alSet, alGet]
  | cons kv t iht =>
    obtain ⟨k2, v2⟩ := kv
    by_cases hk : k2 = k
    · subst hk
      simp [alSet, alGet]
    · simp [alSet, alGet, hk, iht]

theorem alGet_alSet_ne {α β : Type} [DecidableEq α] (l : List (α × β)) (k k2 : α) (v : β)
    (h : k2 ≠ k) : alGet (alSet l k v) k2 = alGet l k2 := by
  have hne : ¬ k = k2 := fun he => h he.symm
  induction l with
  | nil => simp [alSet, alGet, hne]
  | cons kv t iht =>
    obtain ⟨k3, v3⟩ := kv
    by_cases hk : k3 = k
    · subst hk
      simp [alSet, alGet, hne]
    · by_cases hk2 : k3 = k2
      · simp [alSet, alGet, hk, hk2, hne, h]
      · simp [alSet, alGet, hk, hk2, iht]

theorem alGet_alErase_self {α β : Type} [DecidableEq α] (l : List (α × β)) (k : α) :
    alGet (alErase l k) k = none := by
  induction l with
  | nil => rfl
  | cons kv t iht =>
    obtain ⟨k2, v2⟩ := kv
    by_cases hk : k2 = k
    · simp [alErase, hk, iht]
    · simp [alErase, alGet, hk, iht]

theorem alGet_alErase_ne {α β : Type} [DecidableEq α] (l : List (α × β)) (k k2 : α)
    (h : k2 ≠ k) : alGet (alErase l k) k2 = alGet l k2 := by
  induction l with
  | nil => rfl
  | cons kv t iht =>
    obtain ⟨k3, v3⟩ := kv
    have hne : ¬ k = k2 := fun he => h he.symm
    by_cases hk : k3 = k
    · subst hk
      simp [alErase, alGet, hne, iht]
    · by_cases hk2 : k3 = k2
      · simp [alErase, alGet, hk, hk2, h]
      · simp [alErase, alGet, hk, hk2, iht]

theorem alSet_alSet_same {α β : Type} [DecidableEq α] (l : List (α × β)) (k : α) (v : β) :
    alSet (alSet l k v) k v = alSet l k v := by
  induction l with
  | nil => simp [alSet]
  | cons kv t iht =>
    obtain ⟨k2, v2⟩ := kv
    by_cases hk : k2 = k
    · subst hk
      simp [alSet]
    · simp [alSet, hk, iht]

theorem updSess_channelMap (st : SrvState) (sid : Nat) (f : SessionR → SessionR) :
    (updSess st sid f).channelMap = st.channelMap := rfl

theorem updSess_sessionMap (st : SrvState) (sid : Nat) (f : SessionR → SessionR) :
    (updSess st sid f).sessionMap = st.sessionMap := rfl

theorem unbindUid_channelMap (st : SrvState) (sid : Nat) :
    (unbindUid st sid).1.channelMap = st.channelMap := by
  unfold unbindUid
  cases hg : getSess st sid with
  | none => simp
  | some s =>
    cases hu : s.uid with
    | none => simp [hu]
    | some u => simp [hu, updSess_channelMap]

theorem closeSession_channelMap (st : SrvState) (sid : Nat) (code : Nat) :
    (closeSession st sid code).1.channelMap = st.channelMap := by
  unfold closeSession
  cases hg : getSess st sid with
  | none => simp
  | some s =>
    by_cases hs : s.sockOpen
    · simp [hs, updSess_channelMap]
    · simp [hs]

theorem closeSession_sessionMap (st : SrvState) (sid : Nat) (code : Nat) :
    (closeSession st sid code).1.sessionMap = st.sessionMap := by
  unfold closeSession
  cases hg : getSess st sid with
  | none => simp
  | some s =>
    by_cases hs : s.sockOpen
    · simp [hs, updSess_sessionMap]
    · simp [hs]

theorem bindUid_channelMap (st : SrvState) (sid : Nat) (u : String) (b : Bool) :
    (bindUid st sid u b).1.channelMap = st.channelMap := by
  unfold bindUid
  cases hm : alGet st.sessionMap u with
  | none => simp [updSess_channelMap, unbindUid_channelMap]
  | some oldSid =>
    cases b <;>
      simp [updSess_channelMap, unbindUid_channelMap, closeSession_channelMap]

theorem newSession_channelMap (st : SrvState) (sid : Nat) :
    (newSession st sid).channelMap = st.channelMap := rfl

theorem chanInvS_of_channelMap_eq {st st2 : SrvState}
    (h : st2.channelMap = st.channelMap) (hi : chanInvS st) : chanInvS st2 := by
  intro gid ch hget
  rw [h] at hget
  exact hi gid ch hget

theorem joinChannel_channelMap (st : SrvState) (sid : Nat) (gid : String) :
    (joinChannel st sid gid).channelMap =
      (let ch := (alGet st.channelMap gid).getD ⟨0, []⟩
       if sid ∈ ch.sessions then alSet st.channelMap gid ch
       else alSet st.channelMap gid ⟨ch.count + 1, ch.sessions ++ [sid]⟩) := by
  unfold joinChannel
  by_cases hmem : sid ∈ ((alGet st.channelMap gid).getD ⟨0, []⟩).sessions
  · simp [hmem]
  · simp [hmem, updSess_channelMap]

theorem quitChannel_channelMap (st : SrvState) (sid : Nat) (gid : String) :
    (quitChannel st sid gid).channelMap =
      (match alGet st.channelMap gid with
       | none => st.channelMap
       | some ch =>
         let ch2 := if sid ∈ ch.sessions then
             (⟨ch.count - 1, ch.sessions.erase sid⟩ : GroupChannel) else ch
         if ch2.count ≤ 0 then alErase st.channelMap gid
         else alSet st.channelMap gid ch2) := by
  unfold quitChannel
  cases halg : alGet st.channelMap gid with
  | none => rfl
  | some ch =>
    by_cases hmem : sid ∈ ch.sessions
    · simp [hmem, updSess_channelMap, apply_ite SrvState.channelMap]
    · simp [hmem, apply_ite SrvState.channelMap]

theorem chanInvS_joinChannel (st : SrvState) (sid : Nat) (gid : String)
    (hi : chanInvS st) : chanInvS (joinChannel st sid gid) := by
  intro gid2 ch2 hget
  rw [joinChannel_channelMap] at hget
  simp only at hget
  by_cases hg : gid2 = gid
  · subst hg
    cases halg : alGet st.channelMap gid2 with
    | none =>
      rw [halg] at hget
      simp only [Option.getD_none] at hget
      rw [if_neg (List.not_mem_nil sid), alGet_alSet_self] at hget
      cases hget
      exact ⟨by simp, by simp, by simp⟩
    | some c =>
      rw [halg] at hget
      simp only [Option.getD_some] at hget
      obtain ⟨hc1, hc2, hc3⟩ := hi gid2 c halg
      by_cases hmem : sid ∈ c.sessions
      · rw [if_pos hmem, alGet_alSet_self] at hget
        cases hget
        exact ⟨hc1, hc2, hc3⟩
      · rw [if_neg hmem, alGet_alSet_self] at hget
        cases hget
        refine ⟨?_, ?_, ?_⟩
        · show c.count + 1 = ((c.sessions ++ [sid]).length : Int)
          simp only [List.length_append, List.length_singleton]
          omega
        · show (0 : Int) < c.count + 1
          omega
        · show (c.sessions ++ [sid]).Nodup
          simp [List.nodup_append, hc3, hmem]
  · by_cases hmem : sid ∈ ((alGet st.channelMap gid).getD ⟨0, []⟩).sessions
    · rw [if_pos hmem, alGet_alSet_ne _ _ _ _ hg] at hget
      exact hi gid2 ch2 hget
    · rw [if_neg hmem, alGet_alSet_ne _ _ _ _ hg] at hget
      exact hi gid2 ch2 hget

theorem chanInvS_quitChannel (st : SrvState) (sid : Nat) (gid : String)
    (hi : chanInvS st) : chanInvS (quitChannel st sid gid) := by
  intro gid2 ch2 hget
  rw [quitChannel_channelMap] at hget
  cases halg : alGet st.channelMap gid with
  | none =>
    rw [halg] at hget
    exact hi _ _ hget
  | some ch =>
    rw [halg] at hget
    simp only at hget
    obtain ⟨hc1, hc2, hc3⟩ := hi gid ch halg
    by_cases hmem : sid ∈ ch.sessions
    · rw [if_pos hmem] at hget
      by_cases hz : ((⟨ch.count - 1, ch.sessions.erase sid⟩ : GroupChannel)).count ≤ 0
      · rw [if_pos hz] at hget
        by_cases hg : gid2 = gid
        · subst hg
          rw [alGet_alErase_self] at hget
          cases hget
        · rw [alGet_alErase_ne _ _ _ hg] at hget
          exact hi _ _ hget
      · rw [if_neg hz] at hget
        by_cases hg : gid2 = gid
        · subst hg
          rw [alGet_alSet_self] at hget
          cases hget
          have hlen : (ch.sessions.erase sid).length = ch.sessions.length - 1 :=
            List.length_erase_of_mem hmem
          have hlpos : 0 < ch.sessions.length := List.length_pos_of_mem hmem
          have hz2 : ¬(ch.count - 1 ≤ 0) := hz
          refine ⟨?_, ?_, hc3.erase sid⟩
          · show ch.count - 1 = ((ch.sessions.erase sid).length : Int)
            rw [hlen]
            omega
          · show (0 : Int) < ch.count - 1
            omega
        · rw [alGet_alSet_ne _ _ _ _ hg] at hget
          exact hi _ _ hget
    · rw [if_neg hmem] at hget
      by_cases hz : ch.count ≤ 0
      · rw [if_pos hz] at hget
        by_cases hg : gid2 = gid
        · subst hg
          rw [alGet_alErase_self] at hget
          cases hget
        · rw [alGet_alErase_ne _ _ _ hg] at hget
          exact hi _ _ hget
      · rw [if_neg hz] at hget
        by_cases hg : gid2 = gid
        · subst hg
          rw [alGet_alSet_self] at hget
          cases hget
          exact ⟨hc1, hc2, hc3⟩
        · rw [alGet_alSet_ne _ _ _ _ hg] at hget
          exact hi _ _ hget

theorem foldl_updSess_channelMap (l : List Nat) (f : SessionR → SessionR) :
    ∀ st : SrvState,
      (l.foldl (fun acc sid => updSess acc sid f) st).channelMap = st.channelMap := by
  induction l with
  | nil => intro st; rfl
  | cons a t iht =>
    intro st
    rw [List.foldl_cons, iht, updSess_channelMap]

theorem deleteChannel_channelMap (st : SrvState) (gid : String) :
    (deleteChannel st gid).channelMap =
      (match alGet st.channelMap gid with
       | none => st.channelMap
       | some _ => alErase st.channelMap gid) := by
  unfold deleteChannel
  cases halg : alGet st.channelMap gid with
  | none => rfl
  | some ch => simp [foldl_updSess_channelMap]

theorem chanInvS_deleteChannel (st : SrvState) (gid : String) (hi : chanInvS st) :
    chanInvS (deleteChannel st gid) := by
  intro gid2 ch2 hget
  rw [deleteChannel_channelMap] at hget
  cases halg : alGet st.channelMap gid with
  | none =>
    rw [halg] at hget
    exact hi _ _ hget
  | some ch =>
    rw [halg] at hget
    simp only at hget
    by_cases hg : gid2 = gid
    · subst hg
      rw [alGet_alErase_self] at hget
      cases hget
    · rw [alGet_alErase_ne _ _ _ hg] at hget
      exact hi _ _ hget

theorem chanInvS_foldl_quit (l : List String) (sid : Nat) :
    ∀ st : SrvState, chanInvS st →
      chanInvS (l.foldl (fun acc gid => quitChannel acc sid gid) st) := by
  induction l with
  | nil => intro st h; exact h
  | cons g t iht =>
    intro st h
    rw [List.foldl_cons]
    exact iht _ (chanInvS_quitChannel _ _ _ h)

theorem chanInvS_onSocketClose (st : SrvState) (sid : Nat) (hi : chanInvS st) :
    chanInvS (onSocketClose st sid) := by
  have h1 := chanInvS_foldl_quit (match getSess st sid with
    | some s => s.channels
    | none => []) sid st hi
  refine chanInvS_of_channelMap_eq ?_ h1
  unfold onSocketClose
  simp [unbindUid_channelMap]

theorem chanInvS_reachable (st : SrvState) (h : SrvReachable st) : chanInvS st := by
  induction h with
  | init =>
    intro gid ch hget
    simp [alGet] at hget
  | step hr hstep ih =>
    cases hstep with
    | newSess sid => exact chanInvS_of_channelMap_eq (newSession_channelMap _ _) ih
    | bind sid u b => exact chanInvS_of_channelMap_eq (bindUid_channelMap _ _ _ _) ih
    | unbind sid => exact chanInvS_of_channelMap_eq (unbindUid_channelMap _ _) ih
    | join sid gid => exact chanInvS_joinChannel _ _ _ ih
    | quit sid gid => exact chanInvS_quitChannel _ _ _ ih
    | del gid => exact chanInvS_deleteChannel _ _ ih
    | close sid code =>
      exact chanInvS_of_channelMap_eq (closeSession_channelMap _ _ _) ih
    | sockClose sid => exact chanInvS_onSocketClose _ _ ih

theorem joinChannel_mem (st : SrvState) (sid : Nat) (gid : String) (ch : GroupChannel)
    (hget : alGet st.channelMap gid = some ch) (hmem : sid ∈ ch.sessions) :
    joinChannel st sid gid = { st with channelMap := alSet st.channelMap gid ch } := by
  unfold joinChannel
  rw [hget]
  simp only [Option.getD_some]
  rw [if_pos hmem]

theorem joinChannel_notmem (st : SrvState) (sid : Nat) (gid : String)
    (hmem : sid ∉ ((alGet st.channelMap gid).getD ⟨0, []⟩).sessions) :
    joinChannel st sid gid =
      { updSess st sid (fun x => { x with channels :=
          if gid ∈ x.channels then x.channels else x.channels ++ [gid] }) with
        channelMap := alSet st.channelMap gid
          ⟨((alGet st.channelMap gid).getD ⟨0, []⟩).count + 1,
            ((alGet st.channelMap gid).getD ⟨0, []⟩).sessions ++ [sid]⟩ } := by
  unfold joinChannel
  rw [if_neg hmem]
  rfl

theorem joinChannel_creates (st : SrvState) (sid : Nat) (gid : String)
    (h : alGet st.channelMap gid = none) :
    alGet (joinChannel st sid gid).channelMap gid = some ⟨1, [sid]⟩ := by
  rw [joinChannel_channelMap]
  simp only [h, Option.getD_none]
  rw [if_neg (List.not_mem_nil sid), alGet_alSet_self]
  norm_num

theorem quitChannel_removes_last (st : SrvState) (sid : Nat) (gid : String)
    (h : alGet st.channelMap gid = some ⟨1, [sid]⟩) :
    alGet (quitChannel st sid gid).channelMap gid = none := by
  rw [quitChannel_channelMap, h]
  simp [alGet_alErase_self]

theorem joinChannel_idem (st : SrvState) (sid : Nat) (gid : String) :
    joinChannel (joinChannel st sid gid) sid gid = joinChannel st sid gid := by
  by_cases hmem : sid ∈ ((alGet st.channelMap gid).getD ⟨0, []⟩).sessions
  · cases halg : alGet st.channelMap gid with
    | none =>
      rw [halg] at hmem
      simp at hmem
    | some c =>
      rw [halg] at hmem
      simp only [Option.getD_some] at hmem
      have h1 := joinChannel_mem st sid gid c halg hmem
      rw [h1]
      have halg2 : alGet ({ st with channelMap := alSet st.channelMap gid c } :
          SrvState).channelMap gid = some c := alGet_alSet_self _ _ _
      rw [joinChannel_mem _ sid gid c halg2 hmem]
      simp only [alSet_alSet_same]
  · have h1 := joinChannel_notmem st sid gid hmem
    rw [h1]
    have halg2 : alGet ({ updSess st sid (fun x => { x with channels :=
        if gid ∈ x.channels then x.channels else x.channels ++ [gid] }) with
      channelMap := alSet st.channelMap gid
        ⟨((alGet st.channelMap gid).getD ⟨0, []⟩).count + 1,
          ((alGet st.channelMap gid).getD ⟨0, []⟩).sessions ++ [sid]⟩ } :
        SrvState).channelMap gid = some
          ⟨((alGet st.channelMap gid).getD ⟨0, []⟩).count + 1,
            ((alGet st.channelMap gid).getD ⟨0, []⟩).sessions ++ [sid]⟩ :=
      alGet_alSet_self _ _ _
    have hmem2 : sid ∈ (⟨((alGet st.channelMap gid).getD ⟨0, []⟩).count + 1,
        ((alGet st.channelMap gid).getD ⟨0, []⟩).sessions ++ [sid]⟩ :
        GroupChannel).sessions :=
      List.mem_append_right _ (List.mem_singleton_self sid)
    rw [joinChannel_mem _ sid gid _ halg2 hmem2]
    simp only [alSet_alSet_same]

/-! ## Bridge client (`WssBridge`): requests and the timer tick -/

/-- A pending request entry (`WssBridgeRequest`): submission time and which
of the two callbacks were supplied. -/
structure WssBridgeRequest where
  time : Int
  hasSuccess : Bool
  hasError : Bool
deriving DecidableEq, Repr

/-- Bridge-client state relevant to requests, heartbeat and reconnect. -/
structure BridgeState where
  timerInc : Nat
  reqIdInc : Nat
  netDelay : Int
  retryCnt : Nat
  requests : List (Nat × WssBridgeRequest)
  connected : Bool
  paused : Bool
  expired : Bool
deriving DecidableEq, Repr

/-- Externally visible effects of the bridge client, in program order.
`errorCB id code data` is an invocation of `request.callError` with that
response envelope. -/
inductive BridgeEvent where
  | errorCB : Nat → Int → String → BridgeEvent
  | sent : String → Nat → Option JValue → BridgeEvent
  | retryCB : Nat → BridgeEvent
  | secondCB : Nat → Int → BridgeEvent
deriving DecidableEq, Repr

/-- `WssBridge.sendPackData(pack)`: silently does nothing when expired or
not connected; otherwise hands the frame to the socket.  (Serialization of
`JValue` packets never fails in the model.) -/
def sendPackData (st : BridgeState) (route : String) (reqId : Nat)
    (msg : Option JValue) : List BridgeEvent :=
  if st.expired then []
  else if st.connected then [.sent route reqId msg]
  else []

/-- `WssBridge.request(route, message, onsuccess, onerror, ...)`: allocate
`reqId = reqIdInc++`, install a pending entry when at least one callback was
supplied, then `sendPackData`. -/
def request (st : BridgeState) (route : String) (msg : Option JValue)
    (hasSuccess hasError : Bool) (now : Int) : BridgeState × List BridgeEvent :=
  let reqId := st.reqIdInc
  let st1 := { st with
    reqIdInc := st.reqIdInc + 1,
    requests := if hasSuccess || hasError then
        st.requests ++ [(reqId, ⟨now, hasSuccess, hasError⟩)]
      else st.requests }
  (st1, sendPackData st1 route reqId msg)

/-- `WssBridge.onTimerTick()`: advance the second counter, complete every
pending request older than `timeout` with `{504, 'Gateway Timeout'}` and
remove it, then heartbeat (when connected) or reconnect (when not), and
finally the per-second callback. -/
def onTimerTick (st : BridgeState) (timeout : Int) (heartick conntick : Nat)
    (now : Int) : BridgeState × List BridgeEvent :=
  let timerInc2 := st.timerInc + 1
  let sweepEvents := (st.requests.filter fun kv =>
      decide (now - kv.2.time > timeout)).map fun kv =>
    BridgeEvent.errorCB kv.1 504 "Gateway Timeout"
  let requests2 := st.requests.filter fun kv => !decide (now - kv.2.time > timeout)
  let st1 := { st with timerInc := timerInc2, requests := requests2 }
  if st.connected then
    if timerInc2 % heartick = 0 then
      let st2 := { st1 with reqIdInc := st1.reqIdInc + 1 }
      (st2, sweepEvents ++
        sendPackData st2 RouteCode.ROUTE_HEARTICK st1.reqIdInc (some (.num now)) ++
        [.secondCB timerInc2 st1.netDelay])
    else (st1, sweepEvents ++ [.secondCB timerInc2 st1.netDelay])
  else
    if timerInc2 % conntick = 0 ∧ st.paused = false then
      let st2 := { st1 with retryCnt := st1.retryCnt + 1 }
      (st2, sweepEvents ++ [.retryCB st2.retryCnt, .secondCB timerInc2 st1.netDelay])
    else (st1, sweepEvents ++ [.secondCB timerInc2 st1.netDelay])

theorem mem_unique_of_nodup_keys {α β : Type} [DecidableEq α]
    (l : List (α × β)) (hnd : (l.map Prod.fst).Nodup) (k : α) (a b : β)
    (ha : (k, a) ∈ l) (hb : (k, b) ∈ l) : a = b := by
  induction l with
  | nil => cases ha
  | cons kv t iht =>
    obtain ⟨k2, v2⟩ := kv
    rw [List.map_cons, List.nodup_cons] at hnd
    rcases List.mem_cons.mp ha with hh | hh
    · rcases List.mem_cons.mp hb with hh2 | hh2
      · injection hh with h1 h2
        injection hh2 with h3 h4
        rw [h2, h4]
      · exfalso
        injection hh with h1 h2
        have hx : k ∈ t.map Prod.fst := List.mem_map_of_mem Prod.fst hh2
        rw [h1] at hx
        exact hnd.1 hx
    · rcases List.mem_cons.mp hb with hh2 | hh2
      · exfalso
        injection hh2 with h1 h2
        have hx : k ∈ t.map Prod.fst := List.mem_map_of_mem Prod.fst hh
        rw [h1] at hx
        exact hnd.1 hx
      · exact iht hnd.2 hh hh2

theorem count_errorCB_map (l : List (Nat × WssBridgeRequest)) (id : Nat) :
    (l.map fun kv => BridgeEvent.errorCB kv.1 504 "Gateway Timeout").count
      (BridgeEvent.errorCB id 504 "Gateway Timeout") =
    (l.filter fun kv => kv.1 == id).length := by
  induction l with
  | nil => rfl
  | cons kv t iht =>
    rw [List.map_cons, List.count_cons, iht, List.filter_cons]
    by_cases hk : kv.1 = id
    · simp [hk]
    · simp [hk]

theorem filter_key_of_nodup (l : List (Nat × WssBridgeRequest))
    (hnd : (l.map Prod.fst).Nodup) (id : Nat) (r : WssBridgeRequest)
    (hmem : (id, r) ∈ l) (p : Nat × WssBridgeRequest → Bool) :
    (l.filter fun kv => p kv && (kv.1 == id)) =
      if p (id, r) then [(id, r)] else [] := by
  induction l with
  | nil => cases hmem
  | cons kv t iht =>
    obtain ⟨k2, v2⟩ := kv
    rw [List.map_cons, List.nodup_cons] at hnd
    have hnone : id ∉ t.map Prod.fst →
        t.filter (fun kv => p kv && (kv.1 == id)) = [] := by
      intro hnin
      rw [List.filter_eq_nil_iff]
      intro kv2 hkv
      have hne : kv2.1 ≠ id := fun he => hnin (he ▸ List.mem_map_of_mem Prod.fst hkv)
      simp [hne]
    rcases List.mem_cons.mp hmem with hh | hh
    · injection hh with h1 h2
      subst h1
      subst h2
      rw [List.filter_cons]
      have hcond : (p (id, r) && (((id, r) : Nat × WssBridgeRequest).1 == id)) =
          p (id, r) := by simp
      rw [hcond, hnone hnd.1]
    · have hk : k2 ≠ id := by
        intro he
        have hx : id ∈ t.map Prod.fst := List.mem_map_of_mem Prod.fst hh
        rw [← he] at hx
        exact hnd.1 hx
      rw [List.filter_cons]
      have hcond : (p (k2, v2) && (((k2, v2) : Nat × WssBridgeRequest).1 == id)) =
          false := by simp [hk]
      rw [hcond]
      simp only [Bool.false_eq_true, if_false]
      exact iht hnd.2 hh

/-! ### Session lookup helpers for the binding proofs -/

theorem alGet_mapIf {α β : Type} [DecidableEq α] (l : List (α × β)) (k : α) (f : β → β) :
    alGet (l.map fun kv => if kv.1 = k then (kv.1, f kv.2) else kv) k =
      (alGet l k).map f := by
  induction l with
  | nil => rfl
  | cons kv t iht =>
    obtain ⟨k2, v2⟩ := kv
    by_cases hk : k2 = k
    · subst hk
      rw [List.map_cons, if_pos rfl]
      simp [alGet]
    · rw [List.map_cons, if_neg hk]
      simp [alGet, hk, iht]

theorem alGet_mapIf_ne {α β : Type} [DecidableEq α] (l : List (α × β)) (k k2 : α)
    (f : β → β) (h : k2 ≠ k) :
    alGet (l.map fun kv => if kv.1 = k then (kv.1, f kv.2) else kv) k2 = alGet l k2 := by
  induction l with
  | nil => rfl
  | cons kv t iht =>
    obtain ⟨k3, v3⟩ := kv
    by_cases hk : k3 = k
    · subst hk
      have hne : ¬ k3 = k2 := fun he => h he.symm
      rw [List.map_cons, if_pos rfl]
      simp [alGet, hne, iht]
    · rw [List.map_cons, if_neg hk]
      by_cases hk2 : k3 = k2
      · subst hk2
        simp [alGet]
      · simp [alGet, hk2, iht]

theorem getSess_updSess_self (st : SrvState) (sid : Nat) (f : SessionR → SessionR) :
    getSess (updSess st sid f) sid = (getSess st sid).map f :=
  alGet_mapIf _ _ _

theorem getSess_updSess_ne (st : SrvState) (sid sid2 : Nat) (f : SessionR → SessionR)
    (h : sid2 ≠ sid) : getSess (updSess st sid f) sid2 = getSess st sid2 :=
  alGet_mapIf_ne _ _ _ _ h

/-- The UID currently recorded on the session object with this id. -/
def sessUid (st : SrvState) (sid : Nat) : Option String :=
  (getSess st sid).bind fun s => s.uid

theorem unbindUid_bound (st : SrvState) (sid : Nat) (u : String) (s : SessionR)
    (hg : getSess st sid = some s) (hu : s.uid = some u) :
    unbindUid st sid =
      ({ updSess st sid (fun x => { x with uid := none }) with
          sessionMap := alErase st.sessionMap u }, [.unbound sid u]) := by
  unfold unbindUid
  rw [hg]
  simp only [hu]
  rw [updSess_sessionMap]

theorem unbindUid_unbound (st : SrvState) (sid : Nat)
    (h : sessUid st sid = none) : unbindUid st sid = (st, []) := by
  unfold unbindUid
  unfold sessUid at h
  cases hg : getSess st sid with
  | none => rfl
  | some s =>
    rw [hg, Option.some_bind] at h
    simp only [h]

theorem closeSession_open (st : SrvState) (sid : Nat) (code : Nat) (s : SessionR)
    (hg : getSess st sid = some s) (ho : s.sockOpen = true) :
    closeSession st sid code =
      (updSess st sid (fun x => { x with sockOpen := false, closeCode := some code }),
        [.closed sid code]) := by
  unfold closeSession
  rw [hg]
  simp only [ho, if_true]

theorem quitChannel_sessionMap (st : SrvState) (sid : Nat) (gid : String) :
    (quitChannel st sid gid).sessionMap = st.sessionMap := by
  unfold quitChannel
  cases halg : alGet st.channelMap gid with
  | none => rfl
  | some ch =>
    by_cases hmem : sid ∈ ch.sessions
    · simp [hmem, updSess_sessionMap, apply_ite SrvState.sessionMap]
    · simp [hmem, apply_ite SrvState.sessionMap]

theorem foldl_quit_sessionMap (l : List String) (sid : Nat) :
    ∀ st : SrvState,
      (l.foldl (fun acc gid => quitChannel acc sid gid) st).sessionMap = st.sessionMap := by
  induction l with
  | nil => intro st; rfl
  | cons g t iht =>
    intro st
    rw [List.foldl_cons, iht, quitChannel_sessionMap]

theorem sessUid_updSess (st : SrvState) (sid sid2 : Nat) (f : SessionR → SessionR)
    (hf : ∀ x, (f x).uid = x.uid) :
    sessUid (updSess st sid f) sid2 = sessUid st sid2 := by
  unfold sessUid
  by_cases h : sid2 = sid
  · subst h
    rw [getSess_updSess_self]
    cases getSess st sid2 with
    | none => rfl
    | some s => simp [hf]
  · rw [getSess_updSess_ne _ _ _ _ h]

theorem sessUid_quitChannel (st : SrvState) (sid : Nat) (gid : String) (sid2 : Nat) :
    sessUid (quitChannel st sid gid) sid2 = sessUid st sid2 := by
  unfold quitChannel
  cases halg : alGet st.channelMap gid with
  | none => rfl
  | some ch =>
    by_cases hmem : sid ∈ ch.sessions
    · simp only [hmem, if_true]
      by_cases hz : (ch.count - 1 : Int) ≤ 0
      · rw [if_pos (show ((⟨ch.count - 1, ch.sessions.erase sid⟩ : GroupChannel),
            updSess st sid fun x =>
              { x with channels := x.channels.erase gid }).1.count ≤ 0 from hz)]
        show sessUid (updSess st sid fun x =>
          { x with channels := x.channels.erase gid }) sid2 = sessUid st sid2
        exact sessUid_updSess _ _ _ _ fun x => rfl
      · rw [if_neg (show ¬ ((⟨ch.count - 1, ch.sessions.erase sid⟩ : GroupChannel),
            updSess st sid fun x =>
              { x with channels := x.channels.erase gid }).1.count ≤ 0 from hz)]
        show sessUid (updSess st sid fun x =>
          { x with channels := x.channels.erase gid }) sid2 = sessUid st sid2
        exact sessUid_updSess _ _ _ _ fun x => rfl
    · simp only [hmem, if_false, Bool.false_eq_true]
      by_cases hz : ch.count ≤ 0
      · rw [if_pos (show ((ch, st)).1.count ≤ 0 from hz)]
        rfl
      · rw [if_neg (show ¬ ((ch, st)).1.count ≤ 0 from hz)]
        rfl

theorem sessUid_foldl_quit (l : List String) (sid sid2 : Nat) :
    ∀ st : SrvState,
      sessUid (l.foldl (fun acc gid => quitChannel acc sid gid) st) sid2 =
        sessUid st sid2 := by
  induction l with
  | nil => intro st; rfl
  | cons g t iht =>
    intro st
    rw [List.foldl_cons, iht, sessUid_quitChannel]

theorem unbindUid_fst_sessionMap (st : SrvState) (sid : Nat) :
    (unbindUid st sid).1.sessionMap =
      match sessUid st sid with
      | some u => alErase st.sessionMap u
      | none => st.sessionMap := by
  unfold unbindUid sessUid
  cases hg : getSess st sid with
  | none => rfl
  | some s =>
    cases hu : s.uid with
    | none => simp [hu]
    | some u => simp [hu, updSess_sessionMap]

theorem onSocketClose_sessionMap (st : SrvState) (sid : Nat) :
    (onSocketClose st sid).sessionMap =
      match sessUid st sid with
      | some u => alErase st.sessionMap u
      | none => st.sessionMap := by
  unfold onSocketClose
  show (unbindUid ((match getSess st sid with
      | some s => s.channels
      | none => []).foldl (fun acc gid => quitChannel acc sid gid) st) sid).1.sessionMap = _
  rw [unbindUid_fst_sessionMap, sessUid_foldl_quit, foldl_quit_sessionMap]

/-- C10: if `bindUid(S, u, closeOld=true)` is called while `S` itself is the
session currently bound to `u`, the server first unbinds `S`, closes `S`'s own
socket with code 4009, and then re-installs `S` as the binding for `u`: the
sessions registry maps `u` to a session whose socket is already closed (close
code 4009), and this stays so until `S`'s socket-close event runs the cleanup,
which removes the mapping for `u`. -/
theorem C10_bindUid_self_displacement (st : SrvState) (S : Nat) (u : String)
    (sS : SessionR)
    (hgS : getSess st S = some sS) (huS : sS.uid = some u)
    (hopen : sS.sockOpen = true) (hmap : alGet st.sessionMap u = some S) :
    (bindUid st S u true).2 = [BindEvent.unbound S u, BindEvent.closed S 4009] ∧
    alGet (bindUid st S u true).1.sessionMap u = some S ∧
    (∃ s2, getSess (bindUid st S u true).1 S = some s2 ∧ s2.uid = some u ∧
      s2.sockOpen = false ∧ s2.closeCode = some 4009) ∧
    alGet (onSocketClose (bindUid st S u true).1 S).sessionMap u = none := by
  have h1 := unbindUid_bound st S u sS hgS huS
  have hg1 : getSess ({ updSess st S (fun x => { x with uid := none }) with
      sessionMap := alErase st.sessionMap u }) S = some { sS with uid := none } := by
    show getSess (updSess st S (fun x => { x with uid := none })) S = _
    rw [getSess_updSess_self, hgS]
    rfl
  have h2 := closeSession_open _ S 4009 _ hg1
    (show ({ sS with uid := none } : SessionR).sockOpen = true from hopen)
  have hg2 : getSess (updSess ({ updSess st S (fun x => { x with uid := none }) with
      sessionMap := alErase st.sessionMap u }) S
      (fun x => { x with sockOpen := false, closeCode := some (4009 : Nat) })) S =
      some { sS with uid := none, sockOpen := false, closeCode := some 4009 } := by
    rw [getSess_updSess_self, hg1]
    rfl
  have hsu2 : sessUid (updSess ({ updSess st S (fun x => { x with uid := none }) with
      sessionMap := alErase st.sessionMap u }) S
      (fun x => { x with sockOpen := false, closeCode := some (4009 : Nat) })) S = none := by
    unfold sessUid
    rw [hg2]
    rfl
  have h3 := unbindUid_unbound _ S hsu2
  have hres : bindUid st S u true =
      ({ updSess (updSess ({ updSess st S (fun x => { x with uid := none }) with
            sessionMap := alErase st.sessionMap u }) S
            (fun x => { x with sockOpen := false, closeCode := some (4009 : Nat) })) S
            (fun x => { x with uid := some u }) with
          sessionMap := alSet (alErase st.sessionMap u) u S },
        [BindEvent.unbound S u, BindEvent.closed S 4009]) := by
    unfold bindUid
    simp only [hmap, if_true, h1, h2, h3]
    rfl
  refine ⟨by rw [hres], ?_, ?_, ?_⟩
  · rw [hres]
    exact alGet_alSet_self _ _ _
  · rw [hres]
    refine ⟨{ sS with uid := some u, sockOpen := false, closeCode := some 4009 }, ?_, rfl, rfl, rfl⟩
    show getSess (updSess _ S (fun x => { x with uid := some u })) S = _
    rw [getSess_updSess_self, hg2]
    rfl
  · rw [hres, onSocketClose_sessionMap]
    have hsu3 : sessUid ({ updSess (updSess ({ updSess st S
        (fun x => { x with uid := none }) with
          sessionMap := alErase st.sessionMap u }) S
          (fun x => { x with sockOpen := false, closeCode := some (4009 : Nat) })) S
          (fun x => { x with uid := some u }) with
        sessionMap := alSet (alErase st.sessionMap u) u S } : SrvState) S = some u := by
      show sessUid (updSess _ S (fun x => { x with uid := some u })) S = some u
      unfold sessUid
      rw [getSess_updSess_self, hg2]
      rfl
    rw [hsu3]
    exact alGet_alErase_self _ _

theorem C10_bindUid_self_displacement_witness :
    (bindUid ⟨[(1, ⟨some "u", [], true, none⟩)], [("u", 1)], []⟩ 1 "u" true).2 =
      [BindEvent.unbound 1 "u", BindEvent.closed 1 4009] ∧
    alGet (bindUid ⟨[(1, ⟨some "u", [], true, none⟩)], [("u", 1)], []⟩
      1 "u" true).1.sessionMap "u" = some 1 ∧
    (∃ s2, getSess (bindUid ⟨[(1, ⟨some "u", [], true, none⟩)], [("u", 1)], []⟩
        1 "u" true).1 1 = some s2 ∧
      s2.uid = some "u" ∧ s2.sockOpen = false ∧ s2.closeCode = some 4009) ∧
    alGet (onSocketClose (bindUid ⟨[(1, ⟨some "u", [], true, none⟩)], [("u", 1)], []⟩
      1 "u" true).1 1).sessionMap "u" = none :=
  C10_bindUid_self_displacement _ 1 "u" ⟨some "u", [], true, none⟩ rfl rfl rfl rfl

/-- C3: `bindUid(B, u, closeOld=true)` while a different session `A` holds
UID `u` first unbinds `A`, only then closes it with 4009, then unbinds any
prior UID of `B`, in that order; afterwards the sessions registry maps `u`
to `B`, `B` carries UID `u`, `A` is closed with code 4009, and `A`'s
subsequent socket-close cleanup does not erase `B`'s binding. -/
theorem C3_bindUid_displacement (st : SrvState) (A B : Nat) (u : String)
    (sA sB : SessionR) (hAB : A ≠ B)
    (hgA : getSess st A = some sA) (hgB : getSess st B = some sB)
    (huA : sA.uid = some u) (hopen : sA.sockOpen = true)
    (hmap : alGet st.sessionMap u = some A) :
    (bindUid st B u true).2 =
      [BindEvent.unbound A u, BindEvent.closed A 4009] ++
        (match sB.uid with
          | some v => [BindEvent.unbound B v]
          | none => []) ∧
    alGet (bindUid st B u true).1.sessionMap u = some B ∧
    (∃ s2, getSess (bindUid st B u true).1 B = some s2 ∧ s2.uid = some u) ∧
    (∃ s2, getSess (bindUid st B u true).1 A = some s2 ∧ s2.sockOpen = false ∧
      s2.closeCode = some 4009) ∧
    alGet (onSocketClose (bindUid st B u true).1 A).sessionMap u = some B := by
  have hBA : B ≠ A := fun he => hAB he.symm
  have h1 := unbindUid_bound st A u sA hgA huA
  have hgA1 : getSess ({ updSess st A (fun x => { x with uid := none }) with
      sessionMap := alErase st.sessionMap u }) A = some { sA with uid := none } := by
    show getSess (updSess st A (fun x => { x with uid := none })) A = _
    rw [getSess_updSess_self, hgA]
    rfl
  have h2 := closeSession_open _ A 4009 _ hgA1
    (show ({ sA with uid := none } : SessionR).sockOpen = true from hopen)
  have hgA2 : getSess (updSess ({ updSess st A (fun x => { x with uid := none }) with
      sessionMap := alErase st.sessionMap u }) A
      (fun x => { x with sockOpen := false, closeCode := some (4009 : Nat) })) A =
      some { sA with uid := none, sockOpen := false, closeCode := some 4009 } := by
    rw [getSess_updSess_self, hgA1]
    rfl
  have hgB2 : getSess (updSess ({ updSess st A (fun x => { x with uid := none }) with
      sessionMap := alErase st.sessionMap u }) A
      (fun x => { x with sockOpen := false, closeCode := some (4009 : Nat) })) B =
      some sB := by
    rw [getSess_updSess_ne _ _ _ _ hBA]
    show getSess (updSess st A (fun x => { x with uid := none })) B = some sB
    rw [getSess_updSess_ne _ _ _ _ hBA, hgB]
  cases hBu : sB.uid with
  | none =>
    have hsuB : sessUid (updSess ({ updSess st A (fun x => { x with uid := none }) with
        sessionMap := alErase st.sessionMap u }) A
        (fun x => { x with sockOpen := false, closeCode := some (4009 : Nat) })) B =
        none := by
      unfold sessUid
      rw [hgB2, Option.some_bind]
      exact hBu
    have h3 := unbindUid_unbound _ B hsuB
    have hres : bindUid st B u true =
        ({ updSess (updSess ({ updSess st A (fun x => { x with uid := none }) with
              sessionMap := alErase st.sessionMap u }) A
              (fun x => { x with sockOpen := false, closeCode := some (4009 : Nat) })) B
              (fun x => { x with uid := some u }) with
            sessionMap := alSet (alErase st.sessionMap u) u B },
          [BindEvent.unbound A u, BindEvent.closed A 4009]) := by
      unfold bindUid
      simp only [hmap, if_true, h1, h2, h3]
      rfl
    have hgFB : getSess (bindUid st B u true).1 B = some { sB with uid := some u } := by
      rw [hres]
      show getSess (updSess _ B (fun x => { x with uid := some u })) B = _
      rw [getSess_updSess_self, hgB2]
      rfl
    have hgFA : getSess (bindUid st B u true).1 A =
        some { sA with uid := none, sockOpen := false, closeCode := some 4009 } := by
      rw [hres]
      show getSess (updSess _ B (fun x => { x with uid := some u })) A = _
      rw [getSess_updSess_ne _ _ _ _ hAB]
      exact hgA2
    have hc2 : alGet (bindUid st B u true).1.sessionMap u = some B := by
      rw [hres]
      exact alGet_alSet_self _ _ _
    refine ⟨?_, hc2, ⟨_, hgFB, rfl⟩, ⟨_, hgFA, rfl, rfl⟩, ?_⟩
    · rw [hres]
      rfl
    · rw [onSocketClose_sessionMap]
      have hsuFA : sessUid (bindUid st B u true).1 A = none := by
        unfold sessUid
        rw [hgFA, Option.some_bind]
      rw [hsuFA]
      exact hc2
  | some v =>
    have h3 := unbindUid_bound _ B v sB hgB2 hBu
    have hres : bindUid st B u true =
        ({ updSess ({ updSess (updSess ({ updSess st A
                (fun x => { x with uid := none }) with
                sessionMap := alErase st.sessionMap u }) A
                (fun x => { x with sockOpen := false, closeCode := some (4009 : Nat) })) B
                (fun x => { x with uid := none }) with
              sessionMap := alErase (alErase st.sessionMap u) v }) B
              (fun x => { x with uid := some u }) with
            sessionMap := alSet (alErase (alErase st.sessionMap u) v) u B },
          [BindEvent.unbound A u, BindEvent.closed A 4009, BindEvent.unbound B v]) := by
      unfold bindUid
      simp only [hmap, if_true, h1, h2, h3]
      rfl
    have hgFB : getSess (bindUid st B u true).1 B = some { sB with uid := some u } := by
      rw [hres]
      show getSess (updSess _ B (fun x => { x with uid := some u })) B = _
      rw [getSess_updSess_self]
      show ((getSess (updSess _ B (fun x => { x with uid := none })) B).map _) = _
      rw [getSess_updSess_self, hgB2]
      rfl
    have hgFA : getSess (bindUid st B u true).1 A =
        some { sA with uid := none, sockOpen := false, closeCode := some 4009 } := by
      rw [hres]
      show getSess (updSess _ B (fun x => { x with uid := some u })) A = _
      rw [getSess_updSess_ne _ _ _ _ hAB]
      show getSess (updSess _ B (fun x => { x with uid := none })) A = _
      rw [getSess_updSess_ne _ _ _ _ hAB]
      exact hgA2
    have hc2 : alGet (bindUid st B u true).1.sessionMap u = some B := by
      rw [hres]
      exact alGet_alSet_self _ _ _
    refine ⟨?_, hc2, ⟨_, hgFB, rfl⟩, ⟨_, hgFA, rfl, rfl⟩, ?_⟩
    · rw [hres]
      rfl
    · rw [onSocketClose_sessionMap]
      have hsuFA : sessUid (bindUid st B u true).1 A = none := by
        unfold sessUid
        rw [hgFA, Option.some_bind]
      rw [hsuFA]
      exact hc2

theorem C3_bindUid_displacement_witness :
    (bindUid ⟨[(1, ⟨some "u", [], true, none⟩), (2, ⟨none, [], true, none⟩)],
        [("u", 1)], []⟩ 2 "u" true).2 =
      [BindEvent.unbound 1 "u", BindEvent.closed 1 4009] ++
        (match (⟨none, [], true, none⟩ : SessionR).uid with
          | some v => [BindEvent.unbound 2 v]
          | none => []) ∧
    alGet (bindUid ⟨[(1, ⟨some "u", [], true, none⟩), (2, ⟨none, [], true, none⟩)],
        [("u", 1)], []⟩ 2 "u" true).1.sessionMap "u" = some 2 ∧
    (∃ s2, getSess (bindUid ⟨[(1, ⟨some "u", [], true, none⟩),
        (2, ⟨none, [], true, none⟩)], [("u", 1)], []⟩ 2 "u" true).1 2 = some s2 ∧
      s2.uid = some "u") ∧
    (∃ s2, getSess (bindUid ⟨[(1, ⟨some "u", [], true, none⟩),
        (2, ⟨none, [], true, none⟩)], [("u", 1)], []⟩ 2 "u" true).1 1 = some s2 ∧
      s2.sockOpen = false ∧ s2.closeCode = some 4009) ∧
    alGet (onSocketClose (bindUid ⟨[(1, ⟨some "u", [], true, none⟩),
        (2, ⟨none, [], true, none⟩)], [("u", 1)], []⟩ 2 "u" true).1 1).sessionMap "u" =
      some 2 :=
  C3_bindUid_displacement _ 1 2 "u" ⟨some "u", [], true, none⟩ ⟨none, [], true, none⟩
    (by decide) rfl rfl rfl rfl rfl

/-- C1: for every packet `P`, every password setting (`none` and the falsy
empty string select the plaintext mode, any other password selects the
encrypted mode), and both binary settings, deserializing the result of
serializing `P` with the same password yields `some P` — the same route, the
same reqId and the same message.  The 4-word random salt and iv are
arbitrary, and the AES and Base64 primitives of crypto-js are abstract,
constrained only by their decode-inverts-encode contracts. -/
theorem C1_codec_roundtrip (cp : CryptoPrims) (P : WssBridgePackData)
    (pwd : Option String) (binary : Bool) (salt iv : List Nat)
    (hsalt : salt.length = 4) (hiv : iv.length = 4)
    (haes : ∀ k i s, cp.aesDec k i (cp.aesEnc k i s) = some s)
    (hb64 : ∀ ws, cp.b64Dec (cp.b64Enc ws) = ws) :
    deserialize cp (serialize cp P pwd binary salt iv) pwd = some P :=
  deserialize_serialize cp P pwd binary salt iv hsalt hiv haes hb64

theorem C1_codec_roundtrip_witness :
    deserialize idCrypto
      (serialize idCrypto ⟨some (.str "chat"), some (.num 7), some (.str "hi")⟩
        (some "pwd") true [1, 2, 3, 4] [5, 6, 7, 8])
      (some "pwd") =
      some ⟨some (.str "chat"), some (.num 7), some (.str "hi")⟩ :=
  C1_codec_roundtrip idCrypto ⟨some (.str "chat"), some (.num 7), some (.str "hi")⟩
    (some "pwd") true [1, 2, 3, 4] [5, 6, 7, 8] rfl rfl idCrypto_aes idCrypto_b64

/-- C2 (refuted — code bug): the cluster-group route constant is written
`'$innerGRP'` in the source (`RouteCode.ROUTE_INNERGRP`, WssServer.ts line
709), without the trailing dollar sign, unlike its five siblings: every
reserved route begins with `'$'` and the other five also end with `'$'`,
but `ROUTE_INNERGRP` does not, and it differs from the spec's
`'$innerGRP$'`.  `pushClusterChannel` emits every cluster request on the
constant `'$innerGRP'`, and the receive pipeline dispatches to the
cluster-group (`pushChannel`) handler exactly on `'$innerGRP'`: a validly
signed envelope arriving on `'$innerGRP'` is dispatched to `pushChannel`,
while the same envelope on the spec's `'$innerGRP$'` falls through the
reserved routes and (with no user route registered) is closed with 4006. -/
theorem C2_reserved_route_innergrp_typo :
    ([RouteCode.ROUTE_HEARTICK, RouteCode.ROUTE_RESPONSE, RouteCode.ROUTE_INNERP2P,
        RouteCode.ROUTE_INNERGRP, RouteCode.ROUTE_INNERALL,
        RouteCode.ROUTE_INNERRMC].all fun r => r.data.head? == some '$') = true ∧
    RouteCode.ROUTE_HEARTICK.data.getLast? = some '$' ∧
    RouteCode.ROUTE_RESPONSE.data.getLast? = some '$' ∧
    RouteCode.ROUTE_INNERP2P.data.getLast? = some '$' ∧
    RouteCode.ROUTE_INNERALL.data.getLast? = some '$' ∧
    RouteCode.ROUTE_INNERRMC.data.getLast? = some '$' ∧
    RouteCode.ROUTE_INNERGRP = "$innerGRP" ∧
    RouteCode.ROUTE_INNERGRP.data.getLast? ≠ some '$' ∧
    RouteCode.ROUTE_INNERGRP ≠ "$innerGRP$" ∧
    (∀ (md5 : String → String) (secret : Option String) (cluster : List String)
        (gid : Option JValue) (route : String) (message : JValue) (word : String),
      ((pushClusterChannel md5 secret cluster gid route message word none).all
        fun e => e.2.1 == RouteCode.ROUTE_INNERGRP) = true) ∧
    routeDispatch id (some "sec") [] [] RouteCode.ROUTE_INNERGRP 0
        (generateInnerData id (some "sec") (some (.str "g")) "evt" (.str "x") "w") =
      .pushChannelAct (some (.str "g")) (some (.str "evt")) (some (.str "x")) ∧
    routeDispatch id (some "sec") [] [] "$innerGRP$" 0
        (generateInnerData id (some "sec") (some (.str "g")) "evt" (.str "x") "w") =
      .closeConn 4006 "route error" := by
  refine ⟨by decide, by decide, by decide, by decide, by decide, by decide, by decide,
    by decide, by decide, ?_, ?_, ?_⟩
  · intro md5 secret cluster gid route message word
    simp [pushClusterChannel, List.all_eq_true, List.mem_map]
  · simp [routeDispatch, RouteCode.ROUTE_HEARTICK, RouteCode.ROUTE_RESPONSE,
      RouteCode.ROUTE_INNERP2P, RouteCode.ROUTE_INNERGRP, RouteCode.ROUTE_INNERALL,
      RouteCode.ROUTE_INNERRMC, validateInner, generateInnerData, jsLookup, jsShow,
      jsStringOfJValue, secretStr, jsTruthy, List.find?]
  · simp [routeDispatch, RouteCode.ROUTE_HEARTICK, RouteCode.ROUTE_RESPONSE,
      RouteCode.ROUTE_INNERP2P, RouteCode.ROUTE_INNERGRP, RouteCode.ROUTE_INNERALL,
      RouteCode.ROUTE_INNERRMC]

/-- C9: `_validateInnerData` reads only the `route`, `word` and `sign`
fields of the inner envelope: any two envelopes agreeing on these three
lookups — differing arbitrarily in `message` and/or `tid` — get the same
verdict.  Moreover every envelope produced by `_generateInnerData`
validates, for every payload and every tid: the signature covers only
`route + word + secret`, so the payload and the target id of a verified
envelope are not authenticated by the signature. -/
theorem C9_validate_inner_noninterference (md5 : String → String)
    (secret : Option String) (m1 m2 : JValue)
    (hroute : jsLookup m1 "route" = jsLookup m2 "route")
    (hword : jsLookup m1 "word" = jsLookup m2 "word")
    (hsign : jsLookup m1 "sign" = jsLookup m2 "sign") :
    validateInner md5 secret m1 = validateInner md5 secret m2 ∧
    (∀ (tid : Option JValue) (route : String) (msg : JValue) (word : String),
      validateInner md5 secret (generateInnerData md5 secret tid route msg word) =
        true) := by
  constructor
  · unfold validateInner
    rw [hroute, hword, hsign]
  · intro tid route msg word
    unfold generateInnerData
    by_cases ht : jsTruthy tid = true
    · simp [ht, validateInner, jsLookup, jsShow, jsStringOfJValue, List.find?]
    · simp [ht, validateInner, jsLookup, jsShow, jsStringOfJValue, List.find?]

theorem C9_validate_inner_noninterference_witness :
    validateInner (fun s => s) none
        (.obj [("route", .str "r"), ("message", .str "a"), ("word", .str "w"),
          ("sign", .str "s")]) =
      validateInner (fun s => s) none
        (.obj [("tid", .str "t"), ("route", .str "r"), ("message", .str "b"),
          ("word", .str "w"), ("sign", .str "s")]) ∧
    (∀ (tid : Option JValue) (route : String) (msg : JValue) (word : String),
      validateInner (fun s => s) none
          (generateInnerData (fun s => s) none tid route msg word) = true) :=
  C9_validate_inner_noninterference (fun s => s) none
    (.obj [("route", .str "r"), ("message", .str "a"), ("word", .str "w"),
      ("sign", .str "s")])
    (.obj [("tid", .str "t"), ("route", .str "r"), ("message", .str "b"),
      ("word", .str "w"), ("sign", .str "s")])
    (by decide) (by decide) (by decide)

/-- C4: for a well-formed incoming packet (plaintext mode) whose reqId `n`
already occurs in the session's recent-request-id ring, `_onWebSocketMessage`
leaves the ring unchanged and closes the session with code 4003, dispatching
nothing; for a novel reqId the packet proceeds to route dispatch and `n` is
appended to the ring, after first evicting the oldest `reqIdCache / 2`
entries when the ring already holds at least `reqIdCache` ids; the
constructor default of `reqIdCache` is 32. -/
theorem C4_reqid_replay_gate (cp : CryptoPrims) (md5 : String → String)
    (cfg : WssServerConfig) (remoteRoutes routerRoutes : List String)
    (ring : List Int) (r : String) (n : Int) (m : JValue)
    (hpwd : cfg.pwd = none) (hm : m ≠ JValue.null) :
    (n ∈ ring →
      onWebSocketMessage cp md5 cfg remoteRoutes routerRoutes ring
          (.text (String.mk (jsonRenderV
            (packJson ⟨some (.str r), some (.num n), some m⟩)))) =
        ⟨ring, .closeConn 4003 "repeat error"⟩) ∧
    (n ∉ ring →
      onWebSocketMessage cp md5 cfg remoteRoutes routerRoutes ring
          (.text (String.mk (jsonRenderV
            (packJson ⟨some (.str r), some (.num n), some m⟩)))) =
        ⟨(if cfg.reqIdCache ≤ ring.length then ring.drop (cfg.reqIdCache / 2)
            else ring) ++ [n],
          routeDispatch md5 cfg.secret remoteRoutes routerRoutes r n m⟩) ∧
    defaultServerConfig.reqIdCache = 32 := by
  have hp : jsonParse (String.mk (jsonRenderV
      (packJson ⟨some (.str r), some (.num n), some m⟩))) =
      some (packJson ⟨some (.str r), some (.num n), some m⟩) :=
    jsonParseChars_render _
  have hdeser : deserialize cp
      (.text (String.mk (jsonRenderV
        (packJson ⟨some (.str r), some (.num n), some m⟩)))) cfg.pwd =
      some ⟨some (.str r), some (.num n), some m⟩ := by
    rw [hpwd]
    show (match jsonParse (String.mk (jsonRenderV
        (packJson (⟨some (.str r), some (.num n), some m⟩ : WssBridgePackData)))) with
      | some obj => packOfJson obj
      | none => none) = some ⟨some (.str r), some (.num n), some m⟩
    rw [hp]
    exact packOfJson_packJson _
  have hb : (m == JValue.null) = false := beq_eq_false_iff_ne.mpr hm
  refine ⟨?_, ?_, rfl⟩
  · intro hmem
    have hupd : updateReqId ring n cfg.reqIdCache = (false, ring) := by
      unfold updateReqId
      rw [if_pos hmem]
    simp only [onWebSocketMessage, hdeser, hb, Bool.false_eq_true, if_false, hupd]
  · intro hmem
    have hupd : updateReqId ring n cfg.reqIdCache =
        (true, (if cfg.reqIdCache ≤ ring.length then ring.drop (cfg.reqIdCache / 2)
          else ring) ++ [n]) := by
      unfold updateReqId
      rw [if_neg hmem]
    simp only [onWebSocketMessage, hdeser, hb, Bool.false_eq_true, if_false, hupd]

theorem C4_reqid_replay_gate_witness :
    ((1 : Int) ∈ [(1 : Int)] →
      onWebSocketMessage idCrypto (fun s => s) defaultServerConfig [] [] [(1 : Int)]
          (.text (String.mk (jsonRenderV
            (packJson ⟨some (.str "go"), some (.num 1), some (.str "x")⟩)))) =
        ⟨[(1 : Int)], .closeConn 4003 "repeat error"⟩) ∧
    ((1 : Int) ∉ [(1 : Int)] →
      onWebSocketMessage idCrypto (fun s => s) defaultServerConfig [] [] [(1 : Int)]
          (.text (String.mk (jsonRenderV
            (packJson ⟨some (.str "go"), some (.num 1), some (.str "x")⟩)))) =
        ⟨(if defaultServerConfig.reqIdCache ≤ [(1 : Int)].length then
            [(1 : Int)].drop (defaultServerConfig.reqIdCache / 2)
          else [(1 : Int)]) ++ [(1 : Int)],
          routeDispatch (fun s => s) defaultServerConfig.secret [] [] "go" 1 (.str "x")⟩) ∧
    defaultServerConfig.reqIdCache = 32 :=
  C4_reqid_replay_gate idCrypto (fun s => s) defaultServerConfig [] [] [(1 : Int)]
    "go" 1 (.str "x") rfl (by decide)

/-- A decryption that always fails, exercising the bad-padding branch. -/
def failCrypto : CryptoPrims where
  aesEnc := fun _ _ _ => []
  aesDec := fun _ _ _ => none
  hmacSha256 := fun _ _ => []
  b64Enc := fun _ => ""
  b64Dec := fun _ => []

/-- C8: in plaintext mode an `ArrayBuffer` input — in particular the empty
buffer — deserializes to the packet of the empty object (route, reqId and
message all absent) rather than to a decode failure, and that packet then
fails the shape validation of `_onWebSocketMessage` (close 4002); malformed
inputs — non-JSON text in plaintext mode, failed decryption (truncation or
bad padding), or decrypted text that is not JSON — all yield a decode
failure `none`: `deserialize` is a total function into `Option`, so no
exception escapes the `try/catch` boundary. -/
theorem C8_decode_failure_boundary (cp : CryptoPrims) :
    deserialize cp (.binary []) none = some ⟨none, none, none⟩ ∧
    validShape ⟨none, none, none⟩ = false ∧
    (∀ (md5 : String → String) (cfg : WssServerConfig)
        (remoteRoutes routerRoutes : List String) (ring : List Int),
      cfg.pwd = none →
      onWebSocketMessage cp md5 cfg remoteRoutes routerRoutes ring (.binary []) =
        ⟨ring, .closeConn 4002 "format error"⟩) ∧
    (∀ ws : List Nat, deserialize cp (.binary ws) none = some ⟨none, none, none⟩) ∧
    (∀ s : String, jsonParse s = none → deserialize cp (.text s) none = none) ∧
    (∀ (pw : String) (ws : List Nat), pw ≠ "" →
      cp.aesDec (cp.hmacSha256 (ws.take 4) pw) ((ws.drop 4).take 4) (ws.drop 8) = none →
      deserialize cp (.binary ws) (some pw) = none) ∧
    (∀ (pw : String) (ws : List Nat) (s2 : String), pw ≠ "" →
      cp.aesDec (cp.hmacSha256 (ws.take 4) pw) ((ws.drop 4).take 4) (ws.drop 8) =
        some s2 →
      jsonParse s2 = none →
      deserialize cp (.binary ws) (some pw) = none) := by
  refine ⟨rfl, rfl, ?_, fun ws => rfl, ?_, ?_, ?_⟩
  · intro md5 cfg remoteRoutes routerRoutes ring hpwd
    have hdes : deserialize cp (.binary []) cfg.pwd = some ⟨none, none, none⟩ := by
      rw [hpwd]
      rfl
    simp only [onWebSocketMessage, hdes]
  · intro s hjson
    show (match jsonParse s with
      | some obj => packOfJson obj
      | none => none) = none
    rw [hjson]
  · intro pw ws hpw haes
    simp only [deserialize]
    rw [if_neg hpw]
    simp only [haes]
  · intro pw ws s2 hpw haes hjson
    simp only [deserialize]
    rw [if_neg hpw]
    simp only [haes, hjson]

theorem C8_decode_failure_boundary_witness :
    deserialize idCrypto (.binary []) none = some ⟨none, none, none⟩ ∧
    validShape ⟨none, none, none⟩ = false ∧
    onWebSocketMessage idCrypto (fun s => s) defaultServerConfig [] [] []
      (.binary []) = ⟨[], .closeConn 4002 "format error"⟩ ∧
    deserialize idCrypto (.text "\x7b") none = none ∧
    deserialize failCrypto (.binary [1]) (some "p") = none ∧
    deserialize idCrypto (.binary [0, 0, 0, 0, 0, 0, 0, 0, 120]) (some "p") = none :=
  ⟨(C8_decode_failure_boundary idCrypto).1,
    (C8_decode_failure_boundary idCrypto).2.1,
    (C8_decode_failure_boundary idCrypto).2.2.1 (fun s => s) defaultServerConfig
      [] [] [] rfl,
    (C8_decode_failure_boundary idCrypto).2.2.2.2.1 "\x7b" (by decide),
    (C8_decode_failure_boundary failCrypto).2.2.2.2.2.1 "p" [1] (by decide) rfl,
    (C8_decode_failure_boundary idCrypto).2.2.2.2.2.2 "p" [0, 0, 0, 0, 0, 0, 0, 0, 120]
      (String.mk [Char.ofNat 120]) (by decide) rfl (by decide)⟩

/-- C6: at every state reachable through the registry operations (connect,
bind/unbind, join/quit/delete channel, socket-close cleanup), every
registered channel `C` satisfies `C.count = |C.sessions|` and `C.count > 0`
— so a channel is present in the registry only while it has members; a
channel is created lazily on first join, removed when its last member
quits, and joining the same channel twice is idempotent. -/
theorem C6_channel_registry_invariant :
    (∀ st : SrvState, SrvReachable st →
      ∀ gid ch, alGet st.channelMap gid = some ch →
        ch.count = ch.sessions.length ∧ 0 < ch.count) ∧
    (∀ (st : SrvState) (sid : Nat) (gid : String),
      alGet st.channelMap gid = none →
      alGet (joinChannel st sid gid).channelMap gid = some ⟨1, [sid]⟩) ∧
    (∀ (st : SrvState) (sid : Nat) (gid : String),
      alGet st.channelMap gid = some ⟨1, [sid]⟩ →
      alGet (quitChannel st sid gid).channelMap gid = none) ∧
    (∀ (st : SrvState) (sid : Nat) (gid : String),
      joinChannel (joinChannel st sid gid) sid gid = joinChannel st sid gid) := by
  refine ⟨?_, joinChannel_creates, quitChannel_removes_last, joinChannel_idem⟩
  intro st hreach gid ch hget
  have h := chanInvS_reachable st hreach gid ch hget
  exact ⟨h.1, h.2.1⟩

theorem C6_channel_registry_invariant_witness :
    ((⟨1, [1]⟩ : GroupChannel).count = (⟨1, [1]⟩ : GroupChannel).sessions.length ∧
      0 < (⟨1, [1]⟩ : GroupChannel).count) ∧
    alGet (joinChannel ⟨[], [], []⟩ 2 "h").channelMap "h" = some ⟨1, [2]⟩ ∧
    alGet (quitChannel (joinChannel ⟨[], [], []⟩ 2 "h") 2 "h").channelMap "h" = none ∧
    joinChannel (joinChannel ⟨[], [], []⟩ 2 "h") 2 "h" = joinChannel ⟨[], [], []⟩ 2 "h" :=
  ⟨C6_channel_registry_invariant.1 (joinChannel (newSession ⟨[], [], []⟩ 1) 1 "g")
      (SrvReachable.step (SrvReachable.step SrvReachable.init (SrvStep.newSess _ 1))
        (SrvStep.join _ 1 "g")) "g" ⟨1, [1]⟩ (by decide),
    C6_channel_registry_invariant.2.1 ⟨[], [], []⟩ 2 "h" rfl,
    C6_channel_registry_invariant.2.2.1 (joinChannel ⟨[], [], []⟩ 2 "h") 2 "h" (by decide),
    C6_channel_registry_invariant.2.2.2 ⟨[], [], []⟩ 2 "h"⟩

theorem count_errorCB_sendPackData (st : BridgeState) (route : String) (reqId : Nat)
    (msg : Option JValue) (id : Nat) (c : Int) (s2 : String) :
    (sendPackData st route reqId msg).count (BridgeEvent.errorCB id c s2) = 0 := by
  unfold sendPackData
  split_ifs <;> simp

theorem tick_requests (st : BridgeState) (timeout : Int) (heartick conntick : Nat)
    (now : Int) :
    (onTimerTick st timeout heartick conntick now).1.requests =
      st.requests.filter fun kv => !decide (now - kv.2.time > timeout) := by
  simp only [onTimerTick]
  split_ifs <;> rfl

theorem tick_events_count (st : BridgeState) (timeout : Int) (heartick conntick : Nat)
    (now : Int) (id : Nat) :
    (onTimerTick st timeout heartick conntick now).2.count
        (BridgeEvent.errorCB id 504 "Gateway Timeout") =
      ((st.requests.filter fun kv => decide (now - kv.2.time > timeout)).filter
        fun kv => kv.1 == id).length := by
  simp only [onTimerTick]
  split_ifs <;>
    simp [List.count_append, count_errorCB_map, count_errorCB_sendPackData,
      List.count_cons, List.count_nil]

theorem tick_sweep_expired (st : BridgeState) (timeout : Int) (heartick conntick : Nat)
    (now : Int) (id : Nat) (r : WssBridgeRequest)
    (hnd : (st.requests.map Prod.fst).Nodup) (hmem : (id, r) ∈ st.requests)
    (hexp : now - r.time > timeout) :
    (∀ v, (id, v) ∉ (onTimerTick st timeout heartick conntick now).1.requests) ∧
    (onTimerTick st timeout heartick conntick now).2.count
      (BridgeEvent.errorCB id 504 "Gateway Timeout") = 1 := by
  constructor
  · intro v hv
    rw [tick_requests] at hv
    have hvmem := List.mem_of_mem_filter hv
    have hveq : v = r := mem_unique_of_nodup_keys _ hnd id v r hvmem hmem
    have hp := List.of_mem_filter hv
    rw [hveq] at hp
    simp [hexp] at hp
  · rw [tick_events_count]
    have hcomb : (st.requests.filter fun kv =>
        decide (now - kv.2.time > timeout)).filter (fun kv => kv.1 == id) =
        st.requests.filter fun kv =>
          decide (now - kv.2.time > timeout) && (kv.1 == id) := by
      rw [List.filter_filter]
      exact List.filter_congr fun a _ => by rw [Bool.and_comm]
    rw [hcomb, filter_key_of_nodup st.requests hnd id r hmem
      (fun kv => decide (now - kv.2.time > timeout))]
    rw [if_pos (by simpa using hexp)]
    rfl

theorem tick_sweep_kept (st : BridgeState) (timeout : Int) (heartick conntick : Nat)
    (now : Int) (id : Nat) (r : WssBridgeRequest)
    (hnd : (st.requests.map Prod.fst).Nodup) (hmem : (id, r) ∈ st.requests)
    (hkeep : ¬ now - r.time > timeout) :
    (id, r) ∈ (onTimerTick st timeout heartick conntick now).1.requests ∧
    (onTimerTick st timeout heartick conntick now).2.count
      (BridgeEvent.errorCB id 504 "Gateway Timeout") = 0 := by
  constructor
  · rw [tick_requests]
    exact List.mem_filter.mpr ⟨hmem, by simp [hkeep]⟩
  · rw [tick_events_count]
    have hcomb : (st.requests.filter fun kv =>
        decide (now - kv.2.time > timeout)).filter (fun kv => kv.1 == id) =
        st.requests.filter fun kv =>
          decide (now - kv.2.time > timeout) && (kv.1 == id) := by
      rw [List.filter_filter]
      exact List.filter_congr fun a _ => by rw [Bool.and_comm]
    rw [hcomb, filter_key_of_nodup st.requests hnd id r hmem
      (fun kv => decide (now - kv.2.time > timeout))]
    rw [if_neg (by simpa using hkeep)]
    rfl

/-- C5: on every timer tick of the bridge client, each pending request whose
age strictly exceeds the configured timeout has its error callback invoked
exactly once with the response `(504, "Gateway Timeout")` and is removed
from the pending map, while each pending request at or below the timeout age
is kept and gets no error callback.  (The pending map keys are the strictly
increasing allocated request ids, hence pairwise distinct.) -/
theorem C5_tick_timeout_sweep (st : BridgeState) (timeout : Int)
    (heartick conntick : Nat) (now : Int) (id : Nat) (r : WssBridgeRequest)
    (hnd : (st.requests.map Prod.fst).Nodup) (hmem : (id, r) ∈ st.requests) :
    (now - r.time > timeout →
      (∀ v, (id, v) ∉ (onTimerTick st timeout heartick conntick now).1.requests) ∧
      (onTimerTick st timeout heartick conntick now).2.count
        (BridgeEvent.errorCB id 504 "Gateway Timeout") = 1) ∧
    (¬ now - r.time > timeout →
      (id, r) ∈ (onTimerTick st timeout heartick conntick now).1.requests ∧
      (onTimerTick st timeout heartick conntick now).2.count
        (BridgeEvent.errorCB id 504 "Gateway Timeout") = 0) :=
  ⟨fun hexp => tick_sweep_expired st timeout heartick conntick now id r hnd hmem hexp,
    fun hkeep => tick_sweep_kept st timeout heartick conntick now id r hnd hmem hkeep⟩

theorem C5_tick_timeout_sweep_witness :
    ((180001 : Int) - (0 : Int) > 180000 →
      (∀ v, (5, v) ∉ (onTimerTick ⟨0, 6, 0, 0, [(5, ⟨0, true, true⟩)], true, false, false⟩
        180000 60 3 180001).1.requests) ∧
      (onTimerTick ⟨0, 6, 0, 0, [(5, ⟨0, true, true⟩)], true, false, false⟩
          180000 60 3 180001).2.count
        (BridgeEvent.errorCB 5 504 "Gateway Timeout") = 1) ∧
    (¬ (180001 : Int) - (0 : Int) > 180000 →
      (5, (⟨0, true, true⟩ : WssBridgeRequest)) ∈
        (onTimerTick ⟨0, 6, 0, 0, [(5, ⟨0, true, true⟩)], true, false, false⟩
          180000 60 3 180001).1.requests ∧
      (onTimerTick ⟨0, 6, 0, 0, [(5, ⟨0, true, true⟩)], true, false, false⟩
          180000 60 3 180001).2.count
        (BridgeEvent.errorCB 5 504 "Gateway Timeout") = 0) :=
  C5_tick_timeout_sweep ⟨0, 6, 0, 0, [(5, ⟨0, true, true⟩)], true, false, false⟩
    180000 60 3 180001 5 ⟨0, true, true⟩ (by decide) (by decide)

/-- C7: a `request` issued while the bridge client is disconnected emits no
events at all — no frame is sent and no synchronous failure is reported —
yet when at least one of the two callbacks was supplied the pending entry is
still installed, and on any later tick past the timeout that entry is
removed with its error callback fired exactly once with
`(504, "Gateway Timeout")`. -/
theorem C7_request_while_disconnected (st : BridgeState) (route : String)
    (msg : Option JValue) (hS hE : Bool) (now timeout : Int)
    (heartick conntick : Nat)
    (hconn : st.connected = false)
    (hnd : (st.requests.map Prod.fst).Nodup)
    (hfresh : st.reqIdInc ∉ st.requests.map Prod.fst) :
    (request st route msg hS hE now).2 = [] ∧
    ((hS || hE) = true →
      (st.reqIdInc, (⟨now, hS, hE⟩ : WssBridgeRequest)) ∈
        (request st route msg hS hE now).1.requests ∧
      ∀ now2 : Int, now2 - now > timeout →
        (∀ v, (st.reqIdInc, v) ∉
          (onTimerTick (request st route msg hS hE now).1 timeout heartick conntick
            now2).1.requests) ∧
        (onTimerTick (request st route msg hS hE now).1 timeout heartick conntick
            now2).2.count
          (BridgeEvent.errorCB st.reqIdInc 504 "Gateway Timeout") = 1) := by
  constructor
  · show sendPackData _ route st.reqIdInc msg = []
    simp [sendPackData, hconn]
  · intro hcb
    have hreq : (request st route msg hS hE now).1.requests =
        st.requests ++ [(st.reqIdInc, ⟨now, hS, hE⟩)] := by
      simp [request, hcb]
    have hmem2 : (st.reqIdInc, (⟨now, hS, hE⟩ : WssBridgeRequest)) ∈
        (request st route msg hS hE now).1.requests := by
      rw [hreq]
      exact List.mem_append_right _ (List.mem_singleton.mpr rfl)
    have hnd2 : (((request st route msg hS hE now).1.requests).map Prod.fst).Nodup := by
      rw [hreq, List.map_append]
      refine List.Nodup.append hnd (List.nodup_singleton _) ?_
      intro a ha hb
      simp only [List.map_cons, List.map_nil, List.mem_singleton] at hb
      rw [hb] at ha
      exact hfresh ha
    refine ⟨hmem2, fun now2 hlate => ?_⟩
    exact tick_sweep_expired _ timeout heartick conntick now2 st.reqIdInc
      ⟨now, hS, hE⟩ hnd2 hmem2 hlate

theorem C7_request_while_disconnected_witness :
    (request ⟨0, 5, 0, 0, [], false, false, false⟩ "r" none true true 0).2 = [] ∧
    ((true || true) = true →
      (5, (⟨0, true, true⟩ : WssBridgeRequest)) ∈
        (request ⟨0, 5, 0, 0, [], false, false, false⟩ "r" none true true 0).1.requests ∧
      ∀ now2 : Int, now2 - 0 > 3 →
        (∀ v, (5, v) ∉
          (onTimerTick (request ⟨0, 5, 0, 0, [], false, false, false⟩
            "r" none true true 0).1 3 60 3 now2).1.requests) ∧
        (onTimerTick (request ⟨0, 5, 0, 0, [], false, false, false⟩
            "r" none true true 0).1 3 60 3 now2).2.count
          (BridgeEvent.errorCB 5 504 "Gateway Timeout") = 1) :=
  C7_request_while_disconnected ⟨0, 5, 0, 0, [], false, false, false⟩ "r" none
    true true 0 3 60 3 rfl (by decide) (by decide)

end ImsdkCore
